import Mathlib

/-!
ClowdJobInvocation controller.

A shallow embedding of `controllers/cloud.redhat.com/clowdjobinvocation_controller.go`
together with the request types of `apis/cloud.redhat.com/v1alpha1`.

Conventions of the embedding.

* Go pointer arguments that a function mutates are returned as part of the result
  (explicit state passing); a Go `error` result is an `Option Error` (`none` is `nil`)
  or the `Except.error` branch.
* A Go `[]string` whose nil-ness is observable (`Status.Jobs`) is an `Option (List String)`,
  `none` being the nil slice.
* The cluster reached through `r.Client` is an explicit `Cluster` value; transport failures
  of the individual client calls are injected through a `Faults` value.
* Logging (`r.Log`) and event recording (`r.Recorder`) have no influence on control flow or
  on the returned values and are left out.
-/

set_option autoImplicit false

namespace Clowder

/-- Go `error` values, identified by their message. -/
abbrev Error := String

/-! ## Kubernetes object types (only the fields the controller touches) -/

namespace types

/-- Go `types.NamespacedName`. -/
structure NamespacedName where
  Name : String := ""
  Namespace : String := ""
  deriving DecidableEq, Repr

end types

namespace metav1

/-- Go `metav1.OwnerReference`, reduced to the identity tag of the owner. -/
structure OwnerReference where
  Kind : String := ""
  Name : String := ""
  deriving DecidableEq, Repr

/-- Go `metav1.ObjectMeta`. -/
structure ObjectMeta where
  Name : String := ""
  Namespace : String := ""
  Labels : List (String × String) := []
  OwnerReferences : List OwnerReference := []
  deriving DecidableEq, Repr

end metav1

namespace core

/-- Go `core.ResourceRequirements`. -/
structure ResourceRequirements where
  Limits : List (String × String) := []
  Requests : List (String × String) := []
  deriving DecidableEq, Repr

/-- Go `core.LocalObjectReference`. -/
structure LocalObjectReference where
  Name : String := ""
  deriving DecidableEq, Repr

/-- Go `core.EnvVar`. -/
structure EnvVar where
  Name : String := ""
  Value : String := ""
  deriving DecidableEq, Repr

/-- Go `core.VolumeMount`. -/
structure VolumeMount where
  Name : String := ""
  MountPath : String := ""
  deriving DecidableEq, Repr

/-- Go `core.SecretVolumeSource`. -/
structure SecretVolumeSource where
  SecretName : String := ""
  deriving DecidableEq, Repr

/-- Go `core.VolumeSource`; `Secret` is a pointer in Go, `none` is nil. -/
structure VolumeSource where
  Secret : Option SecretVolumeSource := none
  deriving DecidableEq, Repr

/-- Go `core.Volume`. -/
structure Volume where
  Name : String := ""
  VolumeSource : VolumeSource := {}
  deriving DecidableEq, Repr

/-- Go `core.Container`. -/
structure Container where
  Name : String := ""
  Image : String := ""
  Command : List String := []
  Env : List EnvVar := []
  Resources : ResourceRequirements := {}
  VolumeMounts : List VolumeMount := []
  ImagePullPolicy : String := ""
  deriving DecidableEq, Repr

/-- Go `core.PodSpec`. -/
structure PodSpec where
  RestartPolicy : String := ""
  ImagePullSecrets : List LocalObjectReference := []
  ServiceAccountName : String := ""
  Volumes : List Volume := []
  Containers : List Container := []
  deriving DecidableEq, Repr

/-- Go `core.PodTemplateSpec`. -/
structure PodTemplateSpec where
  ObjectMeta : metav1.ObjectMeta := {}
  Spec : PodSpec := {}
  deriving DecidableEq, Repr

/-- Go `core.Secret`; `Data` is the `map[string][]byte` as an association list. -/
structure Secret where
  ObjectMeta : metav1.ObjectMeta := {}
  Data : List (String × String) := []
  deriving DecidableEq, Repr

/-- Go `core.ServiceAccount`. -/
structure ServiceAccount where
  ObjectMeta : metav1.ObjectMeta := {}
  ImagePullSecrets : List LocalObjectReference := []
  deriving DecidableEq, Repr

/-- Go constant `core.RestartPolicyNever`. -/
def RestartPolicyNever : String := "Never"

/-- Go constant `core.PullAlways`. -/
def PullAlways : String := "Always"

end core

namespace batchv1

/-- Go `batchv1.JobCondition`; the field `Type` is spelled `Typ`. -/
structure JobCondition where
  Typ : String := ""
  deriving DecidableEq, Repr

/-- Go `batchv1.JobSpec`. -/
structure JobSpec where
  Template : core.PodTemplateSpec := {}
  deriving DecidableEq, Repr

/-- Go `batchv1.JobStatus`. -/
structure JobStatus where
  Conditions : List JobCondition := []
  deriving DecidableEq, Repr

/-- Go `batchv1.Job`. -/
structure Job where
  ObjectMeta : metav1.ObjectMeta := {}
  Spec : JobSpec := {}
  Status : JobStatus := {}
  deriving DecidableEq, Repr

/-- Go `batchv1.JobList`. -/
structure JobList where
  Items : List Job := []
  deriving DecidableEq, Repr

end batchv1

namespace config

/-- Go `config.AppConfig`: the decoded configuration object of one application. Its schema
is declared outside the controller; it is kept as an uninterpreted list of settings. -/
structure AppConfig where
  settings : List (String × String) := []
  deriving DecidableEq, Repr

end config

/-! ## Request, application and environment types -/

namespace crd

/-- Go `crd.IqeJobSpec`: the test-invocation payload, with the fields the controller reads. -/
structure IqeJobSpec where
  ImageTag : String := ""
  Marker : String := ""
  DynaconfEnvName : String := ""
  Filter : String := ""
  deriving DecidableEq, Repr

/-- Go `crd.JobTestingSpec`. -/
structure JobTestingSpec where
  Iqe : IqeJobSpec := {}
  deriving DecidableEq, Repr

/-- Go `ClowdJobInvocationSpec`. -/
structure ClowdJobInvocationSpec where
  AppName : String := ""
  Jobs : List String := []
  Testing : JobTestingSpec := {}
  deriving DecidableEq, Repr

/-- Go `ClowdJobInvocationStatus`. `Jobs` is the job-name collection the control loop
uses (`none` is the nil slice); `PodNames` is the declared pod-name mapping. -/
structure ClowdJobInvocationStatus where
  Completed : Bool := false
  Jobs : Option (List String) := none
  PodNames : List (String × String) := []
  deriving DecidableEq, Repr

/-- Go `ClowdJobInvocation`; the embedded `ObjectMeta` is flattened into
`Name`, `Namespace` and `Labels`. -/
structure ClowdJobInvocation where
  Name : String := ""
  Namespace : String := ""
  Labels : List (String × String) := []
  Spec : ClowdJobInvocationSpec := {}
  Status : ClowdJobInvocationStatus := {}
  deriving DecidableEq, Repr

/-- Go `ClowdJobInvocationList`. -/
structure ClowdJobInvocationList where
  Items : List ClowdJobInvocation := []
  deriving DecidableEq, Repr

/-- Go `crd.PodSpec` of a job definition. -/
structure PodSpec where
  Image : String := ""
  Resources : core.ResourceRequirements := {}
  deriving DecidableEq, Repr

/-- Go `crd.Job`: a named job definition declared by an application. -/
structure Job where
  Name : String := ""
  PodSpec : PodSpec := {}
  deriving DecidableEq, Repr

/-- Go `crd.TestingSpec` of an application. -/
structure TestingSpec where
  IqePlugin : String := ""
  deriving DecidableEq, Repr

/-- Go `crd.ClowdAppSpec`. -/
structure ClowdAppSpec where
  EnvName : String := ""
  Jobs : List Job := []
  Testing : TestingSpec := {}
  deriving DecidableEq, Repr

/-- Go `crd.ClowdAppStatus`, reduced to the readiness flag. -/
structure ClowdAppStatus where
  Ready : Bool := false
  deriving DecidableEq, Repr

/-- Go `crd.ClowdApp`. -/
structure ClowdApp where
  Name : String := ""
  Namespace : String := ""
  Spec : ClowdAppSpec := {}
  Status : ClowdAppStatus := {}
  deriving DecidableEq, Repr

/-- Go `crd.ClowdAppList`. -/
structure ClowdAppList where
  Items : List ClowdApp := []
  deriving DecidableEq, Repr

/-- Go `crd.IqeConfig` of an environment. -/
structure IqeConfig where
  ImageBase : String := ""
  Resources : core.ResourceRequirements := {}
  deriving DecidableEq, Repr

/-- Go `crd.TestingConfig` of an environment. -/
structure TestingConfig where
  Iqe : IqeConfig := {}
  K8SAccessLevel : String := ""
  ConfigAccess : String := ""
  deriving DecidableEq, Repr

/-- Go `crd.ProvidersConfig`, reduced to what the controller reads. -/
structure ProvidersConfig where
  Testing : TestingConfig := {}
  PullSecrets : List types.NamespacedName := []
  deriving DecidableEq, Repr

/-- Go `crd.ClowdEnvironmentSpec`. -/
structure ClowdEnvironmentSpec where
  Providers : ProvidersConfig := {}
  deriving DecidableEq, Repr

/-- Go `crd.ClowdEnvironment` (cluster scoped: it has no namespace). -/
structure ClowdEnvironment where
  Name : String := ""
  Spec : ClowdEnvironmentSpec := {}
  deriving DecidableEq, Repr

end crd

namespace ctrl

/-- Go `ctrl.Result`. -/
structure Result where
  Requeue : Bool := false
  deriving DecidableEq, Repr

end ctrl

namespace reconcile

/-- Go `reconcile.Request`. -/
structure Request where
  NamespacedName : types.NamespacedName := {}
  deriving DecidableEq, Repr

end reconcile

/-! ## The cluster behind `r.Client` -/

/-- Outcome of a typed `r.Client.Get`. -/
inductive GetResult (α : Type) where
  | ok (a : α)
  | notFound
  | failed (err : Error)

/-- The objects stored in the cluster that the controller can observe or write. -/
structure Cluster where
  cjis : List crd.ClowdJobInvocation := []
  apps : List crd.ClowdApp := []
  envs : List crd.ClowdEnvironment := []
  jobs : List batchv1.Job := []
  secrets : List core.Secret := []
  serviceAccounts : List core.ServiceAccount := []
  deriving DecidableEq, Repr

/-- A managed object as the Object Cache holds it (Go `runtime.Object`). -/
inductive Object where
  | job (j : batchv1.Job)
  | secret (s : core.Secret)
  | serviceAccount (s : core.ServiceAccount)
  deriving DecidableEq, Repr

/-- The metadata of a managed object. -/
def Object.objectMeta : Object → metav1.ObjectMeta
  | .job j => j.ObjectMeta
  | .secret s => s.ObjectMeta
  | .serviceAccount s => s.ObjectMeta

/-- Go types that can be handed to the Object Cache as a `runtime.Object`. -/
class Managed (α : Type) where
  wrap : α → Object
  unwrap : Object → Option α

instance : Managed batchv1.Job where
  wrap := Object.job
  unwrap
    | .job j => some j
    | _ => none

instance : Managed core.Secret where
  wrap := Object.secret
  unwrap
    | .secret s => some s
    | _ => none

instance : Managed core.ServiceAccount where
  wrap := Object.serviceAccount
  unwrap
    | .serviceAccount s => some s
    | _ => none

/-- Whether object metadata carries the given namespaced name. -/
def hasName (m : metav1.ObjectMeta) (nn : types.NamespacedName) : Bool :=
  m.Name == nn.Name && m.Namespace == nn.Namespace

/-- The stored request under a namespaced name, if any. -/
def Cluster.lookupCJI (c : Cluster) (nn : types.NamespacedName) : Option crd.ClowdJobInvocation :=
  c.cjis.find? (fun o => o.Name == nn.Name && o.Namespace == nn.Namespace)

/-- The stored application under a namespaced name, if any. -/
def Cluster.lookupApp (c : Cluster) (nn : types.NamespacedName) : Option crd.ClowdApp :=
  c.apps.find? (fun o => o.Name == nn.Name && o.Namespace == nn.Namespace)

/-- The stored environment under a name, if any (environments have no namespace). -/
def Cluster.lookupEnv (c : Cluster) (nn : types.NamespacedName) : Option crd.ClowdEnvironment :=
  c.envs.find? (fun o => o.Name == nn.Name)

/-- The stored batch job under a namespaced name, if any. -/
def Cluster.lookupJob (c : Cluster) (nn : types.NamespacedName) : Option batchv1.Job :=
  c.jobs.find? (fun o => hasName o.ObjectMeta nn)

/-- The stored secret under a namespaced name, if any. -/
def Cluster.lookupSecret (c : Cluster) (nn : types.NamespacedName) : Option core.Secret :=
  c.secrets.find? (fun o => hasName o.ObjectMeta nn)

/-- The stored service account under a namespaced name, if any. -/
def Cluster.lookupServiceAccount (c : Cluster) (nn : types.NamespacedName) :
    Option core.ServiceAccount :=
  c.serviceAccounts.find? (fun o => hasName o.ObjectMeta nn)

/-- The stored object of the same Go type as `receiver` under a namespaced name. -/
def Cluster.lookupObject (c : Cluster) (nn : types.NamespacedName) (receiver : Object) :
    Option Object :=
  match receiver with
  | .job _ => (c.lookupJob nn).map Object.job
  | .secret _ => (c.lookupSecret nn).map Object.secret
  | .serviceAccount _ => (c.lookupServiceAccount nn).map Object.serviceAccount

/-! ## Resource identities and the Object Cache -/

namespace providers

/-- Cardinality contract of a resource identity. -/
inductive Cardinality where
  | Single
  | Multi
  deriving DecidableEq, Repr

/-- Modelled from the spec: `providers.ResourceIdent` is declared outside the given sources.
A resource identity is a stable logical name, the token of the underlying resource kind and
a cardinality; here `Provider` and `Purpose` are the two strings of the declaration. -/
structure ResourceIdent where
  Provider : String
  Purpose : String
  Kind : String
  cardinality : Cardinality
  deriving DecidableEq, Repr

/-- Modelled from the spec: `providers.NewSingleResourceIdent` is declared outside the given
sources; it is the pure factory `declare(logicalName, kind, Single)`. -/
def NewSingleResourceIdent (provider purpose kind : String) : ResourceIdent :=
  { Provider := provider, Purpose := purpose, Kind := kind, cardinality := .Single }

/-- Modelled from the spec: `providers.NewMultiResourceIdent` is declared outside the given
sources; it is the pure factory `declare(logicalName, kind, Multi)`. -/
def NewMultiResourceIdent (provider purpose kind : String) : ResourceIdent :=
  { Provider := provider, Purpose := purpose, Kind := kind, cardinality := .Multi }

/-- Origin of a staged cache entry. -/
inductive Origin where
  | Created
  | ToUpdate
  deriving DecidableEq, Repr

/-- Modelled from the spec: the `CacheEntry` of the data model,
`(identity, namespacedName, desiredObject, origin)`. -/
structure CacheEntry where
  identity : ResourceIdent
  namespacedName : types.NamespacedName
  desiredObject : Object
  origin : Origin
  deriving DecidableEq, Repr

/-- Modelled from the spec: `providers.ObjectCache` is declared outside the given sources.
`staged` are the entries awaiting the flush, in staging order; `fetched` memoizes the
lookups that found the object in the cluster. -/
structure ObjectCache where
  staged : List CacheEntry := []
  fetched : List (ResourceIdent × types.NamespacedName × Object) := []
  deriving DecidableEq, Repr

end providers

open providers

/-- Transport failures injected into one reconciliation pass: each field is the error (if
any) with which the corresponding client call fails for a reason other than not-found.
The two job listings and the two status writes of a pass are numbered 0 and 1. -/
structure Faults where
  getCJI : Option Error := none
  listJobs : Nat → Option Error := fun _ => none
  statusUpdate : Nat → Option Error := fun _ => none
  getApp : Option Error := none
  getEnv : Option Error := none
  listApps : Option Error := none
  getSecret : types.NamespacedName → Option Error := fun _ => none
  getJob : Option Error := none
  listCJIs : Option (Bool × Error) := none
  cacheGet : ResourceIdent → types.NamespacedName → Option Error := fun _ _ => none
  apply : ResourceIdent → types.NamespacedName → Option Error := fun _ _ => none

/-- Functions of other packages whose results the controller only passes along. -/
structure Ext where
  /-- Go `json.Unmarshal` into a `config.AppConfig`. -/
  jsonUnmarshal : String → Except Error config.AppConfig
  /-- Go `json.Marshal` of the `envConfig` map (top-level key to application-name map). -/
  jsonMarshal : List (String × List (String × config.AppConfig)) → Except Error String
  /-- Go `deployProvider.ProcessResources`. -/
  ProcessResources : crd.PodSpec → crd.ClowdEnvironment → core.ResourceRequirements
  /-- Go `utils.GetCustomLabeler(nil, nn, app)` applied to object metadata. -/
  GetCustomLabeler : types.NamespacedName → crd.ClowdApp → metav1.ObjectMeta → metav1.ObjectMeta

namespace providers

/-- Modelled from the spec: `providers.NewObjectCache` is declared outside the given sources;
a fresh cache is created per reconciliation pass and holds nothing. -/
def NewObjectCache : ObjectCache := {}

/-- The staged entry under a key, if any. -/
def ObjectCache.findStaged (cache : ObjectCache) (identity : ResourceIdent)
    (nn : types.NamespacedName) : Option CacheEntry :=
  cache.staged.find? (fun e => e.identity == identity && e.namespacedName == nn)

/-- The memoized cluster object under a key, if any. -/
def ObjectCache.findFetched (cache : ObjectCache) (identity : ResourceIdent)
    (nn : types.NamespacedName) : Option Object :=
  (cache.fetched.find? (fun e => e.1 == identity && e.2.1 == nn)).map (fun e => e.2.2)

/-- Modelled from the spec: `ObjectCache.Create` is declared outside the given sources.
`create(identity, namespacedName, object)`: if an object under that key already exists in
the cluster, its cluster state is copied into `object` and nothing further is staged; if
absent, a to-be-created entry populated from `object` is staged. Lookups are memoized, so
a repeated create under a key returns what the first one established. Fails with a lookup
error when the backing get fails for a reason other than not-found. The result is the
cache and `object` after the call. -/
def ObjectCache.Create {α : Type} [Managed α] (cache : ObjectCache) (f : Faults) (c : Cluster)
    (identity : ResourceIdent) (nn : types.NamespacedName) (object : α) :
    Except Error (ObjectCache × α) :=
  match cache.findStaged identity nn with
  | some e => .ok (cache, (Managed.unwrap e.desiredObject).getD object)
  | none =>
    match cache.findFetched identity nn with
    | some o => .ok (cache, (Managed.unwrap o).getD object)
    | none =>
      match f.cacheGet identity nn with
      | some err => .error err
      | none =>
        match c.lookupObject nn (Managed.wrap object) with
        | some o =>
          .ok ({ cache with fetched := cache.fetched ++ [(identity, nn, o)] },
            (Managed.unwrap o).getD object)
        | none =>
          .ok ({ cache with staged := cache.staged ++
            [{ identity := identity, namespacedName := nn,
               desiredObject := Managed.wrap object, origin := .Created }] }, object)

/-- Modelled from the spec: `ObjectCache.Update` is declared outside the given sources.
`update(identity, object)`: stages `object` as the desired state of an identity previously
created or fetched in this pass (an entry staged for creation keeps its origin, a fetched
object becomes a to-be-updated entry); fails with a not-staged error if no prior create
established the cache entry. -/
def ObjectCache.Update {α : Type} [Managed α] (cache : ObjectCache) (identity : ResourceIdent)
    (object : α) : Except Error ObjectCache :=
  let o := Managed.wrap object
  let nn : types.NamespacedName :=
    { Name := o.objectMeta.Name, Namespace := o.objectMeta.Namespace }
  match cache.findStaged identity nn with
  | some _ =>
    .ok { cache with staged := cache.staged.map (fun e =>
      if e.identity == identity && e.namespacedName == nn then
        { e with desiredObject := o } else e) }
  | none =>
    match cache.findFetched identity nn with
    | some _ =>
      .ok { cache with staged := cache.staged ++
        [{ identity := identity, namespacedName := nn, desiredObject := o,
           origin := .ToUpdate }] }
    | none => .error "cannot update: object is not staged in the cache"

/-- Effect on the cluster of flushing one staged entry: a create adds the object, an
update replaces the stored object of the same name. -/
def applyEntry (c : Cluster) (e : CacheEntry) : Cluster :=
  match e.origin, e.desiredObject with
  | .Created, .job j => { c with jobs := c.jobs ++ [j] }
  | .Created, .secret s => { c with secrets := c.secrets ++ [s] }
  | .Created, .serviceAccount s => { c with serviceAccounts := c.serviceAccounts ++ [s] }
  | .ToUpdate, .job j =>
    { c with jobs := c.jobs.map (fun o => if hasName o.ObjectMeta e.namespacedName then j else o) }
  | .ToUpdate, .secret s =>
    { c with secrets :=
        c.secrets.map (fun o => if hasName o.ObjectMeta e.namespacedName then s else o) }
  | .ToUpdate, .serviceAccount s =>
    { c with serviceAccounts :=
        c.serviceAccounts.map (fun o => if hasName o.ObjectMeta e.namespacedName then s else o) }

/-- Modelled from the spec: `ObjectCache.ApplyAll` is declared outside the given sources.
`applyAll()`: flushes every staged entry to the cluster, creates for `Created` entries and
updates for `ToUpdate` entries, returning the first failure while still attempting the
remaining entries. The result is the cluster after the flush and that first failure. -/
def ObjectCache.ApplyAll (cache : ObjectCache) (f : Faults) (c : Cluster) :
    Cluster × Option Error :=
  cache.staged.foldl (fun (acc : Cluster × Option Error) e =>
    match f.apply e.identity e.namespacedName with
    | some err => (acc.1, acc.2 <|> some err)
    | none => (applyEntry acc.1 e, acc.2)) (c, none)

end providers

/-! ## Helpers of other packages of the repository -/

/-- Go `len` of a string slice. -/
def sliceLen (s : Option (List String)) : Nat := (s.getD []).length

/-- Go `append(s, e)` on a string slice; the result is never the nil slice. -/
def sliceAppend (s : Option (List String)) (e : String) : Option (List String) :=
  some (s.getD [] ++ [e])

/-- Modelled from the spec: the package helper `contains` is declared outside the given
sources; it tells whether a name appears in a collection of names. -/
def contains (list : Option (List String)) (s : String) : Bool :=
  (list.getD []).any (fun v => v == s)

/-- Go `fmt.Sprintf("%v-%v-%v", a, b, c)` on strings. -/
def sprintfDashed (a b c : String) : String := a ++ "-" ++ b ++ "-" ++ c

/-- Go `fmt.Sprintf("%s-iqe", name)`. -/
def sprintfIqe (name : String) : String := name ++ "-iqe"

/-- Go `fmt.Sprintf("%s:%s", a, b)`. -/
def sprintfColon (a b : String) : String := a ++ ":" ++ b

/-- Go `strings.ReplaceAll(s, "-", "_")`: old and new are single ASCII characters, so the
replacement acts character by character. -/
def replaceAllHyphens (s : String) : String :=
  String.mk (s.data.map (fun ch => if ch = '-' then '_' else ch))

namespace crd

/-- Modelled from the spec: `ClowdApp.IsReady` is declared outside the given sources; it is
the readiness predicate on the owning application. -/
def ClowdApp.IsReady (app : ClowdApp) : Bool := app.Status.Ready

/-- Go `cji.GetLabels()`. -/
def ClowdJobInvocation.GetLabels (cji : ClowdJobInvocation) : List (String × String) :=
  cji.Labels

/-- Modelled from the spec: `ClowdJobInvocation.MakeOwnerReference` is declared outside the
given sources; the back-pointer to the request is the tag of its kind and name. -/
def ClowdJobInvocation.MakeOwnerReference (cji : ClowdJobInvocation) : metav1.OwnerReference :=
  { Kind := "ClowdJobInvocation", Name := cji.Name }

/-- Modelled from the spec: `ClowdJobInvocation.SetObjectMeta` with the options `crd.Name`
and `crd.Labels` is declared outside the given sources; it names the object, places it in
the namespace of the request, labels it and makes the request its owner. -/
def ClowdJobInvocation.SetObjectMeta (cji : ClowdJobInvocation) (j : batchv1.Job)
    (name : String) (labels : List (String × String)) : batchv1.Job :=
  { j with ObjectMeta := { Name := name, Namespace := cji.Namespace, Labels := labels,
                           OwnerReferences := [cji.MakeOwnerReference] } }

/-- Modelled from the spec: `crd.GetAppInSameEnv` is declared outside the given sources; it
enumerates every application sharing the environment of the given application. -/
def GetAppInSameEnv (f : Faults) (c : Cluster) (app : ClowdApp) : Except Error ClowdAppList :=
  match f.listApps with
  | some err => .error err
  | none => .ok { Items := c.apps.filter (fun a => a.Spec.EnvName == app.Spec.EnvName) }

end crd

namespace jobProvider

/-- Modelled from the spec: `jobProvider.CreateJobResource` is declared outside the given
sources. `buildManagedJob(definition, environment, request, namespacedName)` is a pure
function of its inputs: the job carries the given name in the namespace of the request, its
pod template has restart policy never, the image-pull secrets of the environment, and the
resources of the definition. -/
def CreateJobResource (x : Ext) (cji : crd.ClowdJobInvocation) (env : crd.ClowdEnvironment)
    (nn : types.NamespacedName) (job : crd.Job) (j : batchv1.Job) : batchv1.Job :=
  let j := cji.SetObjectMeta j nn.Name cji.GetLabels
  { j with Spec.Template :=
      { ObjectMeta := { Labels := cji.GetLabels },
        Spec := { RestartPolicy := core.RestartPolicyNever,
                  ImagePullSecrets :=
                    env.Spec.Providers.PullSecrets.map (fun (s : types.NamespacedName) =>
                      ({ Name := s.Name } : core.LocalObjectReference)),
                  Containers := [{ Name := nn.Name, Image := job.PodSpec.Image,
                                   Resources := x.ProcessResources job.PodSpec env }] } } }

end jobProvider

namespace svcAccounts

/-- Modelled from the spec: the identity `svcAccounts.CoreAppServiceAccount` is declared
outside the given sources; one service account per owner. -/
def CoreAppServiceAccount : ResourceIdent :=
  NewSingleResourceIdent "serviceaccount" "core_app_service_account" "ServiceAccount"

/-- Modelled from the spec: `svcAccounts.CreateServiceAccount` is declared outside the given
sources; it provisions a service account under the given name through the Object Cache
(create, then the deferred update with the pull secrets and labels). The result is the
error, if any, and the cache after the call. -/
def CreateServiceAccount (cache : ObjectCache) (f : Faults) (c : Cluster)
    (ident : ResourceIdent) (pullSecrets : List types.NamespacedName)
    (nn : types.NamespacedName) (labeler : metav1.ObjectMeta → metav1.ObjectMeta) :
    Option Error × ObjectCache :=
  let sa : core.ServiceAccount := {}
  match cache.Create f c ident nn sa with
  | .error err => (some err, cache)
  | .ok (cache, sa) =>
    let sa := { sa with ObjectMeta := labeler { sa.ObjectMeta with Name := nn.Name,
                                                                   Namespace := nn.Namespace },
                        ImagePullSecrets :=
                          pullSecrets.map (fun (s : types.NamespacedName) =>
                            ({ Name := s.Name } : core.LocalObjectReference)) }
    match cache.Update ident sa with
    | .error err => (some err, cache)
    | .ok cache => (none, cache)

end svcAccounts

/-! ## Client calls of the controller -/

namespace ctrl

/-- Go `ctrl.Request`. -/
abbrev Request := reconcile.Request

end ctrl

/-- Go `r.Client.Get(ctx, nn, &cji)`. -/
def clientGetCJI (f : Faults) (c : Cluster) (nn : types.NamespacedName) :
    GetResult crd.ClowdJobInvocation :=
  match f.getCJI with
  | some err => .failed err
  | none =>
    match c.lookupCJI nn with
    | some o => .ok o
    | none => .notFound

/-- Go `r.Client.Get(ctx, nn, &app)`; not-found is an error like any other here. -/
def clientGetApp (f : Faults) (c : Cluster) (nn : types.NamespacedName) :
    Except Error crd.ClowdApp :=
  match f.getApp with
  | some err => .error err
  | none =>
    match c.lookupApp nn with
    | some o => .ok o
    | none => .error "clowdapp not found"

/-- Go `r.Client.Get(ctx, nn, &env)`. -/
def clientGetEnv (f : Faults) (c : Cluster) (nn : types.NamespacedName) :
    Except Error crd.ClowdEnvironment :=
  match f.getEnv with
  | some err => .error err
  | none =>
    match c.lookupEnv nn with
    | some o => .ok o
    | none => .error "clowdenvironment not found"

/-- Go `r.Client.Get(ctx, name, &secretConfig)`. -/
def clientGetSecret (f : Faults) (c : Cluster) (nn : types.NamespacedName) :
    Except Error core.Secret :=
  match f.getSecret nn with
  | some err => .error err
  | none =>
    match c.lookupSecret nn with
    | some o => .ok o
    | none => .error "secret not found"

/-- Go `r.Client.Get(ctx, obj, &job)` of the watch router. -/
def clientGetJob (f : Faults) (c : Cluster) (nn : types.NamespacedName) :
    GetResult batchv1.Job :=
  match f.getJob with
  | some err => .failed err
  | none =>
    match c.lookupJob nn with
    | some o => .ok o
    | none => .notFound

/-- Go `r.Client.List(ctx, &jobs, client.InNamespace(ns))`, the `n`-th listing of the pass. -/
def clientListJobs (f : Faults) (n : Nat) (c : Cluster) (ns : String) :
    Except Error batchv1.JobList :=
  match f.listJobs n with
  | some err => .error err
  | none => .ok { Items := c.jobs.filter (fun j => j.ObjectMeta.Namespace == ns) }

/-- Go `r.Client.Status().Update(ctx, &cji)`, the `n`-th status write of the pass: the
status of the stored request becomes the status held in memory. -/
def clientStatusUpdate (f : Faults) (n : Nat) (c : Cluster) (cji : crd.ClowdJobInvocation) :
    Except Error Cluster :=
  match f.statusUpdate n with
  | some err => .error err
  | none =>
    match c.lookupCJI { Name := cji.Name, Namespace := cji.Namespace } with
    | none => .error "clowdjobinvocation not found"
    | some _ =>
      .ok { c with cjis := c.cjis.map (fun o =>
        if o.Name == cji.Name && o.Namespace == cji.Namespace then
          { o with Status := cji.Status } else o) }

/-! ## The controller (`clowdjobinvocation_controller.go`) -/

/-- Go `errors.New(msg)`. -/
def errors.New (msg : String) : Error := msg

/-- Go `var IqeClowdJob`. -/
def IqeClowdJob : ResourceIdent :=
  NewSingleResourceIdent "iqeclowdjob" "core_iqe_clowdjob" "Job"

/-- Go `var ClowdJob`. -/
def ClowdJob : ResourceIdent :=
  NewMultiResourceIdent "clowdjob" "core_clowdjob" "ClowdJobInvocation"

/-- Go `var CoreIqeSecret`. -/
def CoreIqeSecret : ResourceIdent :=
  NewSingleResourceIdent "coreiqesecret" "core_iqe_secret" "Secret"

/-- Go `countCompletedJobs`: the loop over `jobs.Items` with the counter `jobsCompleted`. -/
def countCompletedJobs (jobs : batchv1.JobList) (cji : crd.ClowdJobInvocation) : Nat :=
  jobs.Items.foldl (fun jobsCompleted j =>
    if contains cji.Status.Jobs j.ObjectMeta.Name then
      if hlen : j.Status.Conditions.length > 0 then
        let condition := j.Status.Conditions[0].Typ
        if condition = "Complete" ∨ condition = "Failed" then
          jobsCompleted + 1
        else jobsCompleted
      else jobsCompleted
    else jobsCompleted) 0

/-- Go `getInvocationStatus`: the returned flag and the request after the call (the call
may replace `Status.Jobs` by the empty slice). -/
def getInvocationStatus (jobs : batchv1.JobList) (cji : crd.ClowdJobInvocation) :
    Bool × crd.ClowdJobInvocation :=
  if sliceLen cji.Status.Jobs = 0 then
    (false, { cji with Status.Jobs := some [] })
  else
    let jobsCompleted := countCompletedJobs jobs cji
    let invokedJobs := cji.Spec.Jobs.length
    let completed : Bool :=
      if invokedJobs > 0 then
        decide (jobsCompleted = invokedJobs)
      else
        decide (jobsCompleted > 0)
    (completed, cji)

/-- Go `setCompletedStatus`, for the `n`-th job listing of the pass: the request after
the call, or the listing error. -/
def setCompletedStatus (f : Faults) (n : Nat) (c : Cluster) (cji : crd.ClowdJobInvocation) :
    Except Error crd.ClowdJobInvocation :=
  match clientListJobs f n c cji.Namespace with
  | .error err => .error err
  | .ok jobs =>
    let r := getInvocationStatus jobs cji
    .ok { r.2 with Status.Completed := r.1 }

/-- The loop of `getJobFromName` over the declared job list: the definition at which the
loop returns, if it does. -/
def getJobFromNameLoop (jobName : String) : List crd.Job → Option crd.Job
  | [] => none
  | j :: rest => if j.Name = jobName then some j else getJobFromNameLoop jobName rest

/-- Go `getJobFromName`. -/
def getJobFromName (jobName : String) (app : crd.ClowdApp) : Except Error crd.Job :=
  match getJobFromNameLoop jobName app.Spec.Jobs with
  | some j => .ok j
  | none => .error (errors.New ("No such job " ++ jobName))

/-- Go `constructIqeCommand`. -/
def constructIqeCommand (cji : crd.ClowdJobInvocation) (plugin : String) :
    Except Error (List String) :=
  let command : List String :=
    ["iqe", "tests", "plugin",
     replaceAllHyphens plugin,
     "-m", cji.Spec.Testing.Iqe.Marker]
  let command :=
    if cji.Spec.Testing.Iqe.Filter ≠ "" then
      command ++ ["-k", cji.Spec.Testing.Iqe.Filter]
    else command
  .ok command

/-- Go map read `m[key]` on a `map[string][]byte`: the zero value when the key is absent. -/
def mapGet (m : List (String × String)) (key : String) : String :=
  match m.find? (fun e => e.1 == key) with
  | some e => e.2
  | none => ""

/-- Go map write `m[key] = v`: replaces the entry of an existing key, adds one otherwise. -/
def mapSet {β : Type} (m : List (String × β)) (key : String) (v : β) : List (String × β) :=
  if m.any (fun e => e.1 == key) then
    m.map (fun e => if e.1 == key then (key, v) else e)
  else m ++ [(key, v)]

/-- Go `fetchConfig`. -/
def fetchConfig (x : Ext) (f : Faults) (c : Cluster) (name : types.NamespacedName) :
    Except Error config.AppConfig :=
  match clientGetSecret f c name with
  | .error err => .error err
  | .ok secretConfig =>
    match x.jsonUnmarshal (mapGet secretConfig.Data "cdappconfig.json") with
    | .error err => .error err
    | .ok cfg => .ok cfg

/-- The loop of `createAndApplyIqeSecret` over `appList.Items`, filling `appConfigs`. -/
def fetchAppConfigs (x : Ext) (f : Faults) (c : Cluster) :
    List crd.ClowdApp → List (String × config.AppConfig) →
    Except Error (List (String × config.AppConfig))
  | [], appConfigs => .ok appConfigs
  | app :: rest, appConfigs =>
    match fetchConfig x f c { Name := app.Name, Namespace := app.Namespace } with
    | .error err => .error err
    | .ok appConfig => fetchAppConfigs x f c rest (mapSet appConfigs app.Name appConfig)

/-- Go `createAndApplyIqeSecret`: the returned error and the cache after the call. -/
def createAndApplyIqeSecret (x : Ext) (f : Faults) (c : Cluster) (cache : ObjectCache)
    (cji : crd.ClowdJobInvocation) (app : crd.ClowdApp) (_envName : String) :
    Option Error × ObjectCache :=
  let iqeSecret : core.Secret := {}
  match crd.GetAppInSameEnv f c app with
  | .error err => (some err, cache)
  | .ok appList =>
    let nn : types.NamespacedName :=
      { Name := sprintfIqe cji.Name, Namespace := cji.Namespace }
    match cache.Create f c CoreIqeSecret nn iqeSecret with
    | .error err => (some err, cache)
    | .ok (cache, iqeSecret) =>
      let iqeSecret := { iqeSecret with ObjectMeta.Name := nn.Name }
      let iqeSecret := { iqeSecret with ObjectMeta.Namespace := nn.Namespace }
      let iqeSecret :=
        { iqeSecret with ObjectMeta.OwnerReferences := [cji.MakeOwnerReference] }
      match fetchAppConfigs x f c appList.Items [] with
      | .error err => (some err, cache)
      | .ok appConfigs =>
        let envConfig : List (String × List (String × config.AppConfig)) :=
          [("cdappconfigs", appConfigs)]
        match x.jsonMarshal envConfig with
        | .error err => (some err, cache)
        | .ok envData =>
          let cdEnv : List (String × String) := [("cdenvconfig.json", envData)]
          let iqeSecret := { iqeSecret with Data := cdEnv }
          match cache.Update CoreIqeSecret iqeSecret with
          | .error err => (some err, cache)
          | .ok cache => (none, cache)

/-- Result of `createIqeJobResource`: the returned error, and the cache and the job `j`
after the call. -/
structure IqeJobOutcome where
  err : Option Error
  cache : ObjectCache
  j : batchv1.Job
  deriving DecidableEq, Repr

/-- The body of `case "app":` in the config-access switch of `createIqeJobResource`. -/
def mountAppConfig (cji : crd.ClowdJobInvocation) (c : core.Container) (j : batchv1.Job) :
    core.Container × batchv1.Job :=
  let c := { c with VolumeMounts := c.VolumeMounts ++
    [{ Name := "config-secret", MountPath := "/cdapp" }] }
  let j := { j with Spec.Template.Spec.Volumes := j.Spec.Template.Spec.Volumes ++
    [{ Name := "config-secret",
       VolumeSource := { Secret := some { SecretName := cji.Spec.AppName } } }] }
  (c, j)

/-- The switch of `createIqeJobResource` on the cluster-access level: the error of the
`edit` case, if any, and the cache and the job after the switch. -/
def accessLevelSwitch (x : Ext) (f : Faults) (cl : Cluster) (cache : ObjectCache)
    (env : crd.ClowdEnvironment) (app : crd.ClowdApp) (nn : types.NamespacedName)
    (j : batchv1.Job) : IqeJobOutcome :=
  let accessLevel := env.Spec.Providers.Testing.K8SAccessLevel
  if accessLevel = "edit" then
    let labeler := x.GetCustomLabeler nn app
    match svcAccounts.CreateServiceAccount cache f cl svcAccounts.CoreAppServiceAccount
        env.Spec.Providers.PullSecrets nn labeler with
    | (some err, cache) => { err := some err, cache := cache, j := j }
    | (none, cache) =>
      { err := none, cache := cache,
        j := { j with Spec.Template.Spec.ServiceAccountName := nn.Name } }
  else if accessLevel = "view" then
    { err := none, cache := cache,
      j := { j with Spec.Template.Spec.ServiceAccountName := app.Name } }
  else { err := none, cache := cache, j := j }

/-- The switch of `createIqeJobResource` on the configuration-access level, followed by the
final assignment of the container list `[]core.Container{c}`. The `environment` case falls
through to the `app` case. -/
def configAccessSwitch (x : Ext) (f : Faults) (cl : Cluster) (cache : ObjectCache)
    (cji : crd.ClowdJobInvocation) (env : crd.ClowdEnvironment) (app : crd.ClowdApp)
    (nn : types.NamespacedName) (c : core.Container) (j : batchv1.Job) : IqeJobOutcome :=
  let configAccess := env.Spec.Providers.Testing.ConfigAccess
  if configAccess = "environment" then
    match createAndApplyIqeSecret x f cl cache cji app env.Name with
    | (some secretErr, cache) => { err := some secretErr, cache := cache, j := j }
    | (none, cache) =>
      let c := { c with VolumeMounts := c.VolumeMounts ++
        [{ Name := "cdenvconfig", MountPath := "/cdenv" }] }
      let j := { j with Spec.Template.Spec.Volumes := j.Spec.Template.Spec.Volumes ++
        [{ Name := "cdenvconfig",
           VolumeSource := { Secret := some { SecretName := nn.Name } } }] }
      let r := mountAppConfig cji c j
      { err := none, cache := cache,
        j := { r.2 with Spec.Template.Spec.Containers := [r.1] } }
  else if configAccess = "app" then
    let r := mountAppConfig cji c j
    { err := none, cache := cache,
      j := { r.2 with Spec.Template.Spec.Containers := [r.1] } }
  else
    { err := none, cache := cache,
      j := { j with Spec.Template.Spec.Containers := [c] } }

/-- Go `createIqeJobResource`. -/
def createIqeJobResource (x : Ext) (f : Faults) (cl : Cluster) (cache : ObjectCache)
    (cji : crd.ClowdJobInvocation) (env : crd.ClowdEnvironment) (app : crd.ClowdApp)
    (nn : types.NamespacedName) (j : batchv1.Job) : IqeJobOutcome :=
  let labels := cji.GetLabels
  let j := cji.SetObjectMeta j nn.Name labels
  let j := { j with ObjectMeta.Labels := labels }
  let j := { j with Spec.Template.ObjectMeta.Labels := labels }
  let j := { j with Spec.Template.Spec.RestartPolicy := core.RestartPolicyNever }
  let j := { j with Spec.Template.Spec.ImagePullSecrets :=
    [{ Name := "quay-cloudservices-pull" }] }
  let pod : crd.PodSpec := { Resources := env.Spec.Providers.Testing.Iqe.Resources }
  let envvar : List core.EnvVar := []
  let envvar := envvar ++ [{ Name := "ACG_CONFIG", Value := "/cdapp/cdappconfig.json" }]
  let envvar := envvar ++
    [{ Name := "ENV_FOR_DYNACONF", Value := cji.Spec.Testing.Iqe.DynaconfEnvName }]
  let envvar := envvar ++ [{ Name := "NAMESPACE", Value := nn.Namespace }]
  let envvar := envvar ++ [{ Name := "CLOWDER_ENABLED", Value := "true" }]
  let tag :=
    if cji.Spec.Testing.Iqe.ImageTag ≠ "" then cji.Spec.Testing.Iqe.ImageTag
    else app.Spec.Testing.IqePlugin
  let plugin := app.Spec.Testing.IqePlugin
  let iqeImage := env.Spec.Providers.Testing.Iqe.ImageBase
  let sw := accessLevelSwitch x f cl cache env app nn j
  match sw.err with
  | some err => { err := some err, cache := sw.cache, j := sw.j }
  | none =>
    match constructIqeCommand cji plugin with
    | .error _ =>
      { err := some (errors.New "IQE Marker must be set"), cache := sw.cache, j := sw.j }
    | .ok constructedIqeCommand =>
      let c : core.Container :=
        { Name := nn.Name,
          Image := sprintfColon iqeImage tag,
          Command := constructedIqeCommand,
          Env := envvar,
          Resources := x.ProcessResources pod env,
          VolumeMounts := [],
          ImagePullPolicy := core.PullAlways }
      let j := { sw.j with Spec.Template.Spec.Volumes := [] }
      configAccessSwitch x f cl sw.cache cji env app nn c j

/-- Result of `InvokeJob`: the returned error, and the cache and the request after the
call. -/
structure InvokeOutcome where
  err : Option Error
  cache : ObjectCache
  cji : crd.ClowdJobInvocation
  deriving DecidableEq, Repr

/-- Go `InvokeJob`. -/
def InvokeJob (x : Ext) (f : Faults) (cl : Cluster) (cache : ObjectCache) (job : crd.Job)
    (app : crd.ClowdApp) (env : crd.ClowdEnvironment) (cji : crd.ClowdJobInvocation) :
    InvokeOutcome :=
  let nn : types.NamespacedName :=
    { Name := sprintfDashed app.Name job.Name cji.Name, Namespace := cji.Namespace }
  let j : batchv1.Job := {}
  let j := jobProvider.CreateJobResource x cji env nn job j
  match cache.Create f cl ClowdJob nn j with
  | .error err => { err := some err, cache := cache, cji := cji }
  | .ok (cache, j) =>
    let cji := { cji with Status.Jobs := sliceAppend cji.Status.Jobs j.ObjectMeta.Name }
    { err := none, cache := cache, cji := cji }

/-- Where a part of the body of `Reconcile` leaves the pass: it either falls through to
the following statement with the cache and request it has built, or returns from
`Reconcile` with a result and an error. -/
inductive Step where
  | next (cache : ObjectCache) (cji : crd.ClowdJobInvocation)
  | ret (result : ctrl.Result) (err : Option Error) (cache : ObjectCache)
      (cji : crd.ClowdJobInvocation)
  deriving DecidableEq, Repr

/-- The loop of `Reconcile` over `cji.Spec.Jobs` (walk the job names to be invoked). -/
def invokeJobs (x : Ext) (f : Faults) (cl : Cluster) (app : crd.ClowdApp)
    (env : crd.ClowdEnvironment) :
    List String → ObjectCache → crd.ClowdJobInvocation → Step
  | [], cache, cji => .next cache cji
  | jobName :: rest, cache, cji =>
    match getJobFromName jobName app with
    | .error err => .ret {} (some err) cache cji
    | .ok job =>
      let fullJobName := sprintfDashed app.Name job.Name cji.Name
      if contains cji.Status.Jobs fullJobName then
        invokeJobs x f cl app env rest cache cji
      else
        let r := InvokeJob x f cl cache job app env cji
        match r.err with
        | some err => .ret { Requeue := true } (some err) r.cache r.cji
        | none => invokeJobs x f cl app env rest r.cache r.cji

/-- The part of `Reconcile` that invokes the IQE test job when the request carries a
test-invocation payload. -/
def invokeIqe (x : Ext) (f : Faults) (cl : Cluster) (app : crd.ClowdApp)
    (env : crd.ClowdEnvironment) (cache : ObjectCache) (cji : crd.ClowdJobInvocation) : Step :=
  let emptyTesting : crd.IqeJobSpec := {}
  if cji.Spec.Testing.Iqe ≠ emptyTesting then
    let nn : types.NamespacedName :=
      { Name := sprintfIqe cji.Name, Namespace := cji.Namespace }
    let j : batchv1.Job := {}
    let r := createIqeJobResource x f cl cache cji env app nn j
    match r.err with
    | some err => .ret { Requeue := true } (some err) r.cache cji
    | none =>
      match r.cache.Create f cl IqeClowdJob nn r.j with
      | .error err => .ret { Requeue := true } (some err) r.cache cji
      | .ok (cache, j) =>
        .next cache { cji with Status.Jobs := sliceAppend cji.Status.Jobs j.ObjectMeta.Name }
  else .next cache cji

/-- What one `Reconcile` call returns and leaves behind: the result and error it returns,
the cluster after the call, and the Object Cache of the pass when it returns. -/
structure Pass where
  result : ctrl.Result
  err : Option Error
  cluster : Cluster
  cache : ObjectCache
  deriving DecidableEq, Repr

/-- The end of `Reconcile`: recompute completion, flush the cache, persist the status. -/
def finishPass (f : Faults) (cl : Cluster) (cache : ObjectCache)
    (cji : crd.ClowdJobInvocation) : Pass :=
  match setCompletedStatus f 1 cl cji with
  | .error statusErr =>
    { result := { Requeue := true }, err := some statusErr, cluster := cl, cache := cache }
  | .ok cji =>
    match cache.ApplyAll f cl with
    | (cl, some cacheErr) =>
      { result := {}, err := some cacheErr, cluster := cl, cache := cache }
    | (cl, none) =>
      match clientStatusUpdate f 1 cl cji with
      | .error updateErr =>
        { result := {}, err := some updateErr, cluster := cl, cache := cache }
      | .ok cl => { result := {}, err := none, cluster := cl, cache := cache }

/-- The part of `Reconcile` after the two guards: resolve the application and its
environment, invoke the requested jobs and the test job, and finish the pass. -/
def invokePhase (x : Ext) (f : Faults) (cl : Cluster) (cache : ObjectCache)
    (req : ctrl.Request) (cji : crd.ClowdJobInvocation) : Pass :=
  match clientGetApp f cl
      { Name := cji.Spec.AppName, Namespace := req.NamespacedName.Namespace } with
  | .error appErr =>
    { result := { Requeue := true }, err := some appErr, cluster := cl, cache := cache }
  | .ok app =>
    if !app.IsReady then
      { result := { Requeue := true }, err := none, cluster := cl, cache := cache }
    else
      match clientGetEnv f cl { Name := app.Spec.EnvName } with
      | .error envErr =>
        { result := { Requeue := true }, err := some envErr, cluster := cl, cache := cache }
      | .ok env =>
        match invokeJobs x f cl app env cji.Spec.Jobs cache cji with
        | .ret result err cache _ =>
          { result := result, err := err, cluster := cl, cache := cache }
        | .next cache cji =>
          match invokeIqe x f cl app env cache cji with
          | .ret result err cache _ =>
            { result := result, err := err, cluster := cl, cache := cache }
          | .next cache cji => finishPass f cl cache cji

/-- Go `Reconcile`. -/
def Reconcile (x : Ext) (f : Faults) (cl : Cluster) (req : ctrl.Request) : Pass :=
  match clientGetCJI f cl req.NamespacedName with
  | .notFound => { result := {}, err := none, cluster := cl, cache := NewObjectCache }
  | .failed err => { result := {}, err := some err, cluster := cl, cache := NewObjectCache }
  | .ok cji =>
    let cache := NewObjectCache
    match setCompletedStatus f 0 cl cji with
    | .error err =>
      { result := { Requeue := true }, err := some err, cluster := cl, cache := cache }
    | .ok cji =>
      match clientStatusUpdate f 0 cl cji with
      | .error err =>
        { result := { Requeue := true }, err := some err, cluster := cl, cache := cache }
      | .ok cl =>
        if cji.Status.Completed then
          { result := {}, err := none, cluster := cl, cache := cache }
        else if sliceLen cji.Status.Jobs > 0 then
          { result := {}, err := none, cluster := cl, cache := cache }
        else invokePhase x f cl cache req cji

/-- Go `cjiToEnqueueUponJobUpdate`, for a changed object with the given name and
namespace; `none` is the nil slice. -/
def cjiToEnqueueUponJobUpdate (f : Faults) (cl : Cluster) (a : metav1.ObjectMeta) :
    Option (List reconcile.Request) :=
  let reqs : List reconcile.Request := []
  let obj : types.NamespacedName := { Name := a.Name, Namespace := a.Namespace }
  match clientGetJob f cl obj with
  | .notFound => some reqs
  | .failed _ => none
  | .ok job =>
    match f.listCJIs with
    | some (isNotFound, _) => if isNotFound then some reqs else none
    | none =>
      let cjiList : crd.ClowdJobInvocationList := { Items := cl.cjis }
      some (cjiList.Items.foldl (fun reqs cji =>
        if contains cji.Status.Jobs job.ObjectMeta.Name then
          reqs ++ [{ NamespacedName := { Name := cji.Name, Namespace := cji.Namespace } }]
        else reqs) reqs)

/-! ## Fixtures -/

/-- A live job with the given name and condition types, in namespace `ns`. -/
def liveJob (name : String) (conds : List String) : batchv1.Job :=
  { ObjectMeta := { Name := name, Namespace := "ns" },
    Status := { Conditions := conds.map (fun t => { Typ := t }) } }

/-- A request for three jobs of application `app` whose three managed jobs were invoked. -/
def threeJobRequest : crd.ClowdJobInvocation :=
  { Name := "req", Namespace := "ns",
    Spec := { AppName := "app", Jobs := ["a", "b", "c"] },
    Status := { Jobs := some ["app-a-req", "app-b-req", "app-c-req"] } }

/-- Spec wording of "finished": the condition list is non-empty and the type of its first
condition is `Complete` or `Failed`. -/
def isFinished (j : batchv1.Job) : Bool :=
  match j.Status.Conditions with
  | [] => false
  | first :: _ => first.Typ == "Complete" || first.Typ == "Failed"

/-- Spec wording of the finished count: the number of live jobs that are finished and whose
name appears in the invoked names. -/
def finishedInvokedCount (jobs : batchv1.JobList) (cji : crd.ClowdJobInvocation) : Nat :=
  (jobs.Items.filter (fun j =>
    decide (j.ObjectMeta.Name ∈ cji.Status.Jobs.getD []) && isFinished j)).length


/-- External functions for the examples: an application configuration is decoded from any
non-empty document, documents are encoded by their list of application names, resources
are those of the pod, and objects are labelled with their application. -/
def plainExt : Ext :=
  { jsonUnmarshal := fun doc =>
      if doc = "" then .error "unexpected end of JSON input"
      else .ok { settings := [("doc", doc)] },
    jsonMarshal := fun envConfig =>
      .ok (String.intercalate "," (envConfig.map (fun e =>
        e.1 ++ ":" ++ String.intercalate "+" (e.2.map (fun a => a.1))))),
    ProcessResources := fun pod _ => pod.Resources,
    GetCustomLabeler := fun _ app m => { m with Labels := [("app", app.Name)] } }

/-- No transport failure. -/
def noFaults : Faults := {}

/-- The reconcile request for `ns/req`. -/
def reqKey : ctrl.Request := { NamespacedName := { Name := "req", Namespace := "ns" } }

/-- A cluster whose request `ns/req` asked for job `a`, invoked it and was recorded as
completed, and whose finished job has since disappeared from the job listing. -/
def completedThenCollected : Cluster :=
  { cjis := [{ Name := "req", Namespace := "ns",
               Spec := { AppName := "app", Jobs := ["a"] },
               Status := { Completed := true, Jobs := some ["app-a-req"] } }] }


/-- The same request while its finished job is still listed. -/
def completedStillListed : Cluster :=
  { completedThenCollected with jobs := [liveJob "app-a-req" ["Complete"]] }

/-- The owning application `ns/app` of environment `env`, with test plugin `my-plugin`. -/
def ownerApp : crd.ClowdApp :=
  { Name := "app", Namespace := "ns",
    Spec := { EnvName := "env", Jobs := [{ Name := "a" }, { Name := "b" }, { Name := "c" }],
              Testing := { IqePlugin := "my-plugin" } },
    Status := { Ready := true } }

/-- A sibling application `ns/other` in the same environment. -/
def siblingApp : crd.ClowdApp :=
  { Name := "other", Namespace := "ns", Spec := { EnvName := "env" },
    Status := { Ready := true } }

/-- The environment `env` with the given cluster-access and configuration-access levels. -/
def testEnv (accessLevel configAccess : String) : crd.ClowdEnvironment :=
  { Name := "env",
    Spec := { Providers := { Testing := { Iqe := { ImageBase := "quay.io/iqe" },
                                          K8SAccessLevel := accessLevel,
                                          ConfigAccess := configAccess } } } }

/-- A test-invocation request `ns/req` with the given marker and filter. -/
def testRequest (marker filter : String) : crd.ClowdJobInvocation :=
  { Name := "req", Namespace := "ns",
    Spec := { AppName := "app",
              Testing := { Iqe := { Marker := marker, Filter := filter,
                                    DynaconfEnvName := "clowder_smoke" } } } }

/-- The configuration secret of an application in namespace `ns`. -/
def configSecret (appName doc : String) : core.Secret :=
  { ObjectMeta := { Name := appName, Namespace := "ns" }, Data := [("cdappconfig.json", doc)] }

/-- A cluster in which both applications of `env` have their configuration secret. -/
def bothConfigured (marker accessLevel configAccess : String) : Cluster :=
  { cjis := [testRequest marker ""], apps := [ownerApp, siblingApp],
    envs := [testEnv accessLevel configAccess],
    secrets := [configSecret "app" "app-config", configSecret "other" "other-config"] }

/-- A cluster in which the configuration secret of the sibling application is missing. -/
def siblingUnconfigured (marker accessLevel configAccess : String) : Cluster :=
  { cjis := [testRequest marker ""], apps := [ownerApp, siblingApp],
    envs := [testEnv accessLevel configAccess],
    secrets := [configSecret "app" "app-config"] }

/-- The name under which `Reconcile` builds the test job and the aggregated secret of
`ns/req`. -/
def iqeKey : types.NamespacedName := { Name := "req-iqe", Namespace := "ns" }

/-- Spec wording of "the configuration secret of an application is missing or malformed":
no secret is stored under the name of the application, or its `cdappconfig.json` entry does
not decode. -/
def configMissingOrMalformed (x : Ext) (cl : Cluster) (a : crd.ClowdApp) : Bool :=
  match cl.lookupSecret { Name := a.Name, Namespace := a.Namespace } with
  | none => true
  | some s =>
    match x.jsonUnmarshal (mapGet s.Data "cdappconfig.json") with
    | .error _ => true
    | .ok _ => false

/-- The stored request of `completedThenCollected`. -/
def completedRequest : crd.ClowdJobInvocation :=
  { Name := "req", Namespace := "ns",
    Spec := { AppName := "app", Jobs := ["a"] },
    Status := { Completed := true, Jobs := some ["app-a-req"] } }

/-- A request for three jobs of application `app` for which nothing has been invoked. -/
def freshRequest : crd.ClowdJobInvocation :=
  { Name := "req", Namespace := "ns", Spec := { AppName := "app", Jobs := ["a", "b", "c"] } }

/-- A cluster with three requests, of which the first and the third invoked the job
`app-a-req`, and with two live jobs, of which `unrelated` was invoked by no request. -/
def routedCluster : Cluster :=
  { cjis := [completedRequest,
             { Name := "req2", Namespace := "ns", Spec := { AppName := "app", Jobs := ["b"] },
               Status := { Jobs := some ["app-b-req2"] } },
             { Name := "req3", Namespace := "other-ns",
               Spec := { AppName := "app", Jobs := ["a"] },
               Status := { Jobs := some ["app-b-req3", "app-a-req"] } }],
    jobs := [liveJob "app-a-req" ["Complete"], liveJob "unrelated" []] }

/-- A request `ns/req` for job `a` and the undefined job `zzz`, with its ready application
and its environment. -/
def missingDefinitionCluster : Cluster :=
  { cjis := [{ Name := "req", Namespace := "ns",
               Spec := { AppName := "app", Jobs := ["a", "zzz"] } }],
    apps := [ownerApp], envs := [testEnv "view" "none"] }

/-- Every write of the cache flush fails with a conflict. -/
def flushFails : Faults := { apply := fun _ _ => some "conflict" }

/-- A request `ns/req` for the jobs `a`, `b` and `c` with nothing invoked, with its ready
application and its environment. -/
def freshCluster : Cluster :=
  { cjis := [freshRequest], apps := [ownerApp], envs := [testEnv "view" "none"] }

/-- Spec wording of "the invoked jobs that are finished": the distinct invoked names under
which the live list holds a finished job. -/
def finishedNames (jobs : batchv1.JobList) (names : List String) : List String :=
  names.dedup.filter (fun n =>
    jobs.Items.any (fun j => j.ObjectMeta.Name == n && isFinished j))

/-- A request `ns/req` for job `a` that also carries a test-invocation payload, with
nothing invoked. -/
def jobAndTestRequest : crd.ClowdJobInvocation :=
  { Name := "req", Namespace := "ns",
    Spec := { AppName := "app", Jobs := ["a"], Testing := { Iqe := { Marker := "smoke" } } } }

/-- The request `jobAndTestRequest` with its ready application and its environment. -/
def jobAndTestCluster : Cluster :=
  { cjis := [jobAndTestRequest], apps := [ownerApp], envs := [testEnv "view" "none"] }

/-- The request `jobAndTestRequest` after its invocation pass. -/
def jobAndTestInvoked : crd.ClowdJobInvocation :=
  { jobAndTestRequest with Status := { Jobs := some ["app-a-req", "req-iqe"] } }

/-- A request `ns/req` whose requested job list repeats the name `a`, with nothing
invoked, with its ready application and its environment. -/
def repeatedNameCluster : Cluster :=
  { cjis := [{ Name := "req", Namespace := "ns",
               Spec := { AppName := "app", Jobs := ["a", "a"] } }],
    apps := [ownerApp], envs := [testEnv "view" "none"] }

/-- The objects held by the cache carry the name of the key they are held under. -/
def cacheWellNamed (cache : ObjectCache) : Prop :=
  (∀ e ∈ cache.staged, e.desiredObject.objectMeta.Name = e.namespacedName.Name) ∧
  (∀ t ∈ cache.fetched, t.2.2.objectMeta.Name = t.2.1.Name)

/-- An application `ns2/app` of the environment `env` that bears the name of the owning
application `ns/app`. -/
def namesakeApp : crd.ClowdApp :=
  { Name := "app", Namespace := "ns2", Spec := { EnvName := "env" },
    Status := { Ready := true } }

/-- A cluster in which the two applications of `env` bear the same name, each with its
configuration secret in its own namespace. -/
def namesakeCluster : Cluster :=
  { cjis := [testRequest "smoke" ""], apps := [ownerApp, namesakeApp],
    envs := [testEnv "view" "environment"],
    secrets := [configSecret "app" "app-config",
                { ObjectMeta := { Name := "app", Namespace := "ns2" },
                  Data := [("cdappconfig.json", "namesake-config")] }] }

/-- The external functions of `plainExt`, with documents encoded by their application
names together with the decoded configuration documents. -/
def verboseExt : Ext :=
  { plainExt with
    jsonMarshal := fun envConfig =>
      .ok (String.intercalate "," (envConfig.map (fun e =>
        e.1 ++ ":" ++ String.intercalate "+" (e.2.map (fun a =>
          a.1 ++ "=" ++ String.intercalate "/" (a.2.settings.map (fun kv => kv.2))))))) }

/-- A cluster whose request `ns/req` asked for job `a` and invoked it, while the job is
still running. -/
def invokedStillRunning : Cluster :=
  { cjis := [{ completedRequest with Status.Completed := false }],
    jobs := [liveJob "app-a-req" []] }

/-! ## Theorems -/

/-- A counting loop adds to its counter the number of elements that pass the test. -/
theorem foldl_count_eq {α : Type} (p : α → Bool) (l : List α) (k : Nat) :
    l.foldl (fun n a => if p a then n + 1 else n) k = k + l.countP p := by
  induction l generalizing k with
  | nil => simp
  | cons a t ih =>
    simp only [List.foldl_cons, List.countP_cons]
    rw [ih]
    by_cases h : p a <;> simp [h]
    omega

/-- The helper `contains` decides membership in the slice. -/
theorem contains_iff_mem (list : Option (List String)) (s : String) :
    contains list s = true ↔ s ∈ list.getD [] := by
  unfold contains
  rw [List.any_eq_true]
  constructor
  · rintro ⟨v, hv, h⟩
    have hvs : v = s := eq_of_beq h
    rw [← hvs]
    exact hv
  · intro h
    exact ⟨s, h, beq_self_eq_true s⟩

/-- The loop of `countCompletedJobs` counts the live jobs that pass its two tests. -/
theorem countCompletedJobs_eq_countP (jobs : batchv1.JobList) (cji : crd.ClowdJobInvocation) :
    countCompletedJobs jobs cji =
      jobs.Items.countP (fun j => contains cji.Status.Jobs j.ObjectMeta.Name && isFinished j) := by
  unfold countCompletedJobs
  have key : ∀ (n : Nat) (j : batchv1.Job),
      (if contains cji.Status.Jobs j.ObjectMeta.Name then
        if hlen : j.Status.Conditions.length > 0 then
          let condition := j.Status.Conditions[0].Typ
          if condition = "Complete" ∨ condition = "Failed" then n + 1 else n
        else n
      else n) =
      (if (contains cji.Status.Jobs j.ObjectMeta.Name && isFinished j) = true then n + 1 else n) := by
    intro n j
    unfold isFinished
    cases hc : j.Status.Conditions with
    | nil => simp
    | cons c rest =>
      by_cases h1 : contains cji.Status.Jobs j.ObjectMeta.Name = true <;> simp [h1]
  simp only [key]
  rw [foldl_count_eq]
  simp

/-- When some job has been invoked, `getInvocationStatus` leaves the request as it is. -/
theorem getInvocationStatus_snd_of_invoked (jobs : batchv1.JobList)
    (cji : crd.ClowdJobInvocation) (hinvoked : sliceLen cji.Status.Jobs ≠ 0) :
    (getInvocationStatus jobs cji).2 = cji := by
  unfold getInvocationStatus
  rw [if_neg hinvoked]

/-- Claim C1: for a request whose `Status.Jobs` is non-empty and any live job list,
`getInvocationStatus` returns `finishedCount == requestedCount` when
`requestedCount = len(Spec.Jobs) > 0`, and `finishedCount > 0` when `requestedCount = 0`,
where `finishedCount` is the result of `countCompletedJobs`; the request is left as it is. -/
theorem getInvocationStatus_invoked (jobs : batchv1.JobList) (cji : crd.ClowdJobInvocation)
    (hinvoked : sliceLen cji.Status.Jobs ≠ 0) :
    (0 < cji.Spec.Jobs.length →
      (getInvocationStatus jobs cji).1 =
        decide (countCompletedJobs jobs cji = cji.Spec.Jobs.length)) ∧
    (cji.Spec.Jobs.length = 0 →
      (getInvocationStatus jobs cji).1 = decide (0 < countCompletedJobs jobs cji)) ∧
    (getInvocationStatus jobs cji).2 = cji := by
  unfold getInvocationStatus
  rw [if_neg hinvoked]
  refine ⟨?_, ?_, rfl⟩
  · intro h
    simp [h]
  · intro h
    simp [h]

/-- Witness of claim C1, at the completion arithmetic of the specification: three requested
jobs, one invoked job `Complete`, one absent from the live list and one `Failed` give
`false`; with the third listed as `Complete` the result is `true`. -/
theorem getInvocationStatus_invoked_witness :
    (getInvocationStatus
        { Items := [liveJob "app-a-req" ["Complete"], liveJob "app-c-req" ["Failed"]] }
        threeJobRequest).1 = false ∧
    (getInvocationStatus
        { Items := [liveJob "app-a-req" ["Complete"], liveJob "app-c-req" ["Failed"],
                    liveJob "app-b-req" ["Complete"]] }
        threeJobRequest).1 = true := by
  constructor
  · rw [(getInvocationStatus_invoked _ threeJobRequest (by decide)).1 (by decide)]
    decide
  · rw [(getInvocationStatus_invoked _ threeJobRequest (by decide)).1 (by decide)]
    decide

/-- Claim C2: `countCompletedJobs` returns exactly the number of live jobs whose name
appears in the invoked names and whose condition list is non-empty with first condition
type `Complete` or `Failed`; a live job with an empty condition list, or whose first
condition has another type (whatever the later conditions are), does not change the
count. -/
theorem countCompletedJobs_spec (jobs : batchv1.JobList) (cji : crd.ClowdJobInvocation) :
    countCompletedJobs jobs cji = finishedInvokedCount jobs cji ∧
    (∀ (j : batchv1.Job) (before after : List batchv1.Job),
      (j.Status.Conditions = [] ∨
        ∃ first rest, j.Status.Conditions = first :: rest ∧
          first.Typ ≠ "Complete" ∧ first.Typ ≠ "Failed") →
      countCompletedJobs { Items := before ++ j :: after } cji =
        countCompletedJobs { Items := before ++ after } cji) := by
  constructor
  · rw [countCompletedJobs_eq_countP]
    unfold finishedInvokedCount
    rw [List.countP_eq_length_filter]
    congr 2
    funext j
    congr 1
    by_cases h : j.ObjectMeta.Name ∈ cji.Status.Jobs.getD []
    · simp [h, (contains_iff_mem _ _).2 h]
    · have hc : contains cji.Status.Jobs j.ObjectMeta.Name = false := by
        cases hb : contains cji.Status.Jobs j.ObjectMeta.Name with
        | false => rfl
        | true => exact absurd ((contains_iff_mem _ _).1 hb) h
      simp [h, hc]
  · intro j before after hj
    rw [countCompletedJobs_eq_countP, countCompletedJobs_eq_countP]
    have hnf : isFinished j = false := by
      unfold isFinished
      rcases hj with h | ⟨first, rest, h, h1, h2⟩
      · rw [h]
      · rw [h]
        simp [h1, h2]
    simp [List.countP_append, List.countP_cons, hnf]

/-- Witness of claim C2: a job whose first condition is `Suspended` and whose second is
`Complete` does not change the count. -/
theorem countCompletedJobs_spec_witness :
    countCompletedJobs
      { Items := [liveJob "app-a-req" ["Complete"]] ++
          liveJob "app-b-req" ["Suspended", "Complete"] :: [] } threeJobRequest =
    countCompletedJobs { Items := [liveJob "app-a-req" ["Complete"]] ++ [] } threeJobRequest :=
  (countCompletedJobs_spec { Items := [] } threeJobRequest).2
    (liveJob "app-b-req" ["Suspended", "Complete"]) [liveJob "app-a-req" ["Complete"]] []
    (Or.inr ⟨{ Typ := "Suspended" }, [{ Typ := "Complete" }], rfl, by decide, by decide⟩)

/-- Claim C3: for a request whose `Status.Jobs` is nil or empty, for every live job list
and every requested count, `getInvocationStatus` returns `false` and leaves `Status.Jobs`
as the empty non-nil slice, the rest of the request being untouched. -/
theorem getInvocationStatus_nothing_invoked (jobs : batchv1.JobList)
    (cji : crd.ClowdJobInvocation)
    (hnone : cji.Status.Jobs = none ∨ cji.Status.Jobs = some []) :
    (getInvocationStatus jobs cji).1 = false ∧
    (getInvocationStatus jobs cji).2.Status.Jobs = some [] ∧
    (getInvocationStatus jobs cji).2 = { cji with Status.Jobs := some [] } := by
  have hlen : sliceLen cji.Status.Jobs = 0 := by
    rcases hnone with h | h <;> simp [sliceLen, h]
  unfold getInvocationStatus
  rw [if_pos hlen]
  exact ⟨rfl, rfl, rfl⟩

/-- Witness of claim C3: a request with the nil slice, while a finished job is listed. -/
theorem getInvocationStatus_nothing_invoked_witness :
    (getInvocationStatus { Items := [liveJob "app-a-req" ["Complete"]] }
        { threeJobRequest with Status.Jobs := none }).1 = false ∧
    (getInvocationStatus { Items := [liveJob "app-a-req" ["Complete"]] }
        { threeJobRequest with Status.Jobs := none }).2.Status.Jobs = some [] :=
  ⟨(getInvocationStatus_nothing_invoked _ _ (Or.inl rfl)).1,
   (getInvocationStatus_nothing_invoked _ _ (Or.inl rfl)).2.1⟩

/-- The stored request keeps its key under a map that preserves names. -/
theorem find_map_status (l : List crd.ClowdJobInvocation) (nn : types.NamespacedName)
    (g : crd.ClowdJobInvocation → crd.ClowdJobInvocation)
    (hg : ∀ o, (g o).Name = o.Name ∧ (g o).Namespace = o.Namespace) :
    (l.map g).find? (fun o => o.Name == nn.Name && o.Namespace == nn.Namespace) =
      (l.find? (fun o => o.Name == nn.Name && o.Namespace == nn.Namespace)).map g := by
  induction l with
  | nil => rfl
  | cons a t ih =>
    simp only [List.map_cons, List.find?_cons, (hg a).1, (hg a).2]
    split
    · rfl
    · exact ih

/-- A stored request found under a key carries that key. -/
theorem lookupCJI_name (cl : Cluster) (nn : types.NamespacedName) (cji : crd.ClowdJobInvocation)
    (h : cl.lookupCJI nn = some cji) : cji.Name = nn.Name ∧ cji.Namespace = nn.Namespace := by
  unfold Cluster.lookupCJI at h
  have := List.find?_some h
  simpa using this

/-- Effect of a successful status write on the stored request. -/
theorem clientStatusUpdate_ok (f : Faults) (n : Nat) (cl cl2 : Cluster)
    (nn : types.NamespacedName) (stored cji : crd.ClowdJobInvocation)
    (hstored : cl.lookupCJI nn = some stored)
    (hname : cji.Name = nn.Name ∧ cji.Namespace = nn.Namespace)
    (h : clientStatusUpdate f n cl cji = .ok cl2) :
    cl2.lookupCJI nn = some { stored with Status := cji.Status } ∧
    cl2.jobs = cl.jobs ∧ cl2.secrets = cl.secrets ∧
    cl2.serviceAccounts = cl.serviceAccounts ∧ cl2.apps = cl.apps ∧ cl2.envs = cl.envs := by
  unfold clientStatusUpdate at h
  split at h
  · cases h
  · split at h
    · cases h
    · injection h with h
      subst h
      refine ⟨?_, rfl, rfl, rfl, rfl, rfl⟩
      unfold Cluster.lookupCJI at hstored ⊢
      simp only
      rw [find_map_status _ _ _ (by intro o; split <;> exact ⟨rfl, rfl⟩), hstored]
      have hs := lookupCJI_name cl nn stored hstored
      simp [hname.1, hname.2, hs.1, hs.2]

/-- What a successful `setCompletedStatus` leaves in the request. -/
theorem setCompletedStatus_ok (f : Faults) (n : Nat) (cl : Cluster)
    (cji cji2 : crd.ClowdJobInvocation) (h : setCompletedStatus f n cl cji = .ok cji2) :
    ∃ jobs, clientListJobs f n cl cji.Namespace = .ok jobs ∧
      cji2 = { (getInvocationStatus jobs cji).2 with
                Status.Completed := (getInvocationStatus jobs cji).1 } := by
  unfold setCompletedStatus at h
  split at h
  · cases h
  · rename_i jobs hj
    injection h with h
    exact ⟨jobs, hj, h.symm⟩

/-- Claim C4 (at-most-once invocation): when the stored request already has a non-empty
`Status.Jobs`, a `Reconcile` pass on any cluster, under any transport failures, returns
with the Object Cache of the pass empty (nothing staged), leaves the stored jobs, secrets
and service accounts as they were, and leaves the stored request identical up to its
`Completed` flag (so `Status.Jobs` is unchanged). -/
theorem Reconcile_already_invoked (x : Ext) (f : Faults) (cl : Cluster) (req : ctrl.Request)
    (cji : crd.ClowdJobInvocation)
    (hstored : cl.lookupCJI req.NamespacedName = some cji)
    (hinvoked : 0 < sliceLen cji.Status.Jobs) :
    (Reconcile x f cl req).cache = NewObjectCache ∧
    (Reconcile x f cl req).cache.staged = [] ∧
    (Reconcile x f cl req).cluster.jobs = cl.jobs ∧
    (Reconcile x f cl req).cluster.secrets = cl.secrets ∧
    (Reconcile x f cl req).cluster.serviceAccounts = cl.serviceAccounts ∧
    ∃ completed, (Reconcile x f cl req).cluster.lookupCJI req.NamespacedName =
      some { cji with Status.Completed := completed } := by
  have hne : sliceLen cji.Status.Jobs ≠ 0 := by omega
  have hsame : ∃ completed, cl.lookupCJI req.NamespacedName =
      some { cji with Status.Completed := completed } := ⟨cji.Status.Completed, hstored⟩
  unfold Reconcile clientGetCJI
  cases hg : f.getCJI with
  | some err => exact ⟨rfl, rfl, rfl, rfl, rfl, hsame⟩
  | none =>
    simp only [hstored]
    cases hs : setCompletedStatus f 0 cl cji with
    | error err => exact ⟨rfl, rfl, rfl, rfl, rfl, hsame⟩
    | ok cji2 =>
      obtain ⟨jobs, -, hcji2⟩ := setCompletedStatus_ok f 0 cl cji cji2 hs
      rw [getInvocationStatus_snd_of_invoked jobs cji hne] at hcji2
      dsimp only
      cases hu : clientStatusUpdate f 0 cl cji2 with
      | error err => exact ⟨rfl, rfl, rfl, rfl, rfl, hsame⟩
      | ok cl2 =>
        have hnm := lookupCJI_name cl _ cji hstored
        have hnm2 : cji2.Name = req.NamespacedName.Name ∧
            cji2.Namespace = req.NamespacedName.Namespace := by
          rw [hcji2]; exact hnm
        obtain ⟨hl, hj, hsec, hsa, -, -⟩ :=
          clientStatusUpdate_ok f 0 cl cl2 req.NamespacedName cji cji2 hstored hnm2 hu
        have hlen2 : sliceLen cji2.Status.Jobs > 0 := by rw [hcji2]; exact hinvoked
        have hres : ∃ completed, cl2.lookupCJI req.NamespacedName =
            some { cji with Status.Completed := completed } := by
          refine ⟨(getInvocationStatus jobs cji).1, ?_⟩
          rw [hl, hcji2]
        dsimp only
        by_cases hc : cji2.Status.Completed = true
        · rw [if_pos hc]
          exact ⟨rfl, rfl, hj, hsec, hsa, hres⟩
        · rw [if_neg hc, if_pos hlen2]
          exact ⟨rfl, rfl, hj, hsec, hsa, hres⟩

/-- Witness of claim C4: the pass over a request that invoked `app-a-req`, once when the
request is already complete and once while the job is still running, so that the pass
leaves at the guard on `Status.Jobs`. -/
theorem Reconcile_already_invoked_witness :
    completedStillListed.lookupCJI reqKey.NamespacedName = some completedRequest ∧
    0 < sliceLen completedRequest.Status.Jobs ∧
    (Reconcile plainExt noFaults completedStillListed reqKey).cache.staged = [] ∧
    (Reconcile plainExt noFaults completedStillListed reqKey).cluster.jobs =
      completedStillListed.jobs ∧
    invokedStillRunning.lookupCJI reqKey.NamespacedName =
      some { completedRequest with Status.Completed := false } ∧
    (Reconcile plainExt noFaults invokedStillRunning reqKey).cache.staged = [] ∧
    (Reconcile plainExt noFaults invokedStillRunning reqKey).cluster.jobs =
      invokedStillRunning.jobs ∧
    ((Reconcile plainExt noFaults invokedStillRunning reqKey).cluster.lookupCJI
      reqKey.NamespacedName).map (fun o => (o.Status.Completed, o.Status.Jobs)) =
      some (false, some ["app-a-req"]) :=
  ⟨by decide, by decide,
   (Reconcile_already_invoked plainExt noFaults completedStillListed reqKey
      completedRequest (by decide) (by decide)).2.1,
   (Reconcile_already_invoked plainExt noFaults completedStillListed reqKey
      completedRequest (by decide) (by decide)).2.2.1,
   by decide,
   (Reconcile_already_invoked plainExt noFaults invokedStillRunning reqKey
      { completedRequest with Status.Completed := false } (by decide) (by decide)).2.1,
   (Reconcile_already_invoked plainExt noFaults invokedStillRunning reqKey
      { completedRequest with Status.Completed := false } (by decide) (by decide)).2.2.1,
   by decide⟩

/-- Counterexample to claim C5: the stored request has `Completed = true`; its finished job
is no longer in the live listing; after the `Reconcile` pass the stored request has
`Completed = false`. -/
theorem Reconcile_completed_not_monotonic :
    (completedThenCollected.lookupCJI reqKey.NamespacedName).map (fun o => o.Status.Completed)
      = some true ∧
    ((Reconcile plainExt noFaults completedThenCollected reqKey).cluster.lookupCJI
      reqKey.NamespacedName).map (fun o => o.Status.Completed) = some false := by
  decide

/-- Claim C5 as amended: when the stored request has `Completed = true` and the completion
evaluator still returns `true` on the live job listing of its namespace, the stored request
after a `Reconcile` pass, under any transport failures, is the one stored before; in
particular `Completed` is still `true`. -/
theorem Reconcile_completed_kept (x : Ext) (f : Faults) (cl : Cluster) (req : ctrl.Request)
    (cji : crd.ClowdJobInvocation)
    (hstored : cl.lookupCJI req.NamespacedName = some cji)
    (hcompleted : cji.Status.Completed = true)
    (hlive : (getInvocationStatus
      { Items := cl.jobs.filter (fun j => j.ObjectMeta.Namespace == cji.Namespace) } cji).1
        = true) :
    (Reconcile x f cl req).cluster.lookupCJI req.NamespacedName = some cji := by
  have hne : sliceLen cji.Status.Jobs ≠ 0 := by
    intro h0
    unfold getInvocationStatus at hlive
    rw [if_pos h0] at hlive
    cases hlive
  unfold Reconcile clientGetCJI
  cases hg : f.getCJI with
  | some err => exact hstored
  | none =>
    simp only [hstored]
    cases hs : setCompletedStatus f 0 cl cji with
    | error err => exact hstored
    | ok cji2 =>
      obtain ⟨jobs, hjobs, hcji2⟩ := setCompletedStatus_ok f 0 cl cji cji2 hs
      have hjobs2 : jobs =
          { Items := cl.jobs.filter (fun j => j.ObjectMeta.Namespace == cji.Namespace) } := by
        unfold clientListJobs at hjobs
        split at hjobs
        · cases hjobs
        · injection hjobs with hjobs
          exact hjobs.symm
      rw [getInvocationStatus_snd_of_invoked jobs cji hne, hjobs2, hlive] at hcji2
      have hcji2' : cji2 = cji := by
        rw [hcji2]
        cases cji with
        | mk n ns l sp st =>
          cases st with
          | mk c j p =>
            simp only at hcompleted
            simp [hcompleted]
      subst hcji2'
      dsimp only
      cases hu : clientStatusUpdate f 0 cl cji2 with
      | error err => exact hstored
      | ok cl2 =>
        have hnm := lookupCJI_name cl _ cji2 hstored
        obtain ⟨hl, -⟩ :=
          clientStatusUpdate_ok f 0 cl cl2 req.NamespacedName cji2 cji2 hstored hnm hu
        dsimp only
        rw [if_pos hcompleted]
        exact hl

/-- Witness of claim C5 as amended: the finished job is still listed. -/
theorem Reconcile_completed_kept_witness :
    completedStillListed.lookupCJI reqKey.NamespacedName = some completedRequest ∧
    completedRequest.Status.Completed = true ∧
    (Reconcile plainExt noFaults completedStillListed reqKey).cluster.lookupCJI
      reqKey.NamespacedName = some completedRequest :=
  ⟨by decide, by decide,
   Reconcile_completed_kept plainExt noFaults completedStillListed reqKey completedRequest
     (by decide) (by decide) (by decide)⟩

/-- What a successful `Create` stages: nothing, or one to-be-created entry under the key,
populated from the object handed in. -/
theorem Create_staged {α : Type} [Managed α] (cache cache2 : ObjectCache) (f : Faults)
    (c : Cluster) (identity : ResourceIdent) (nn : types.NamespacedName) (object object2 : α)
    (h : cache.Create f c identity nn object = .ok (cache2, object2)) :
    cache2.staged = cache.staged ∨
    (cache2.staged = cache.staged ++
        [{ identity := identity, namespacedName := nn,
           desiredObject := Managed.wrap object, origin := .Created }] ∧ object2 = object) := by
  unfold ObjectCache.Create at h
  split at h
  · injection h with h; injection h with h1 h2; left; rw [← h1]
  · split at h
    · injection h with h; injection h with h1 h2; left; rw [← h1]
    · split at h
      · cases h
      · split at h
        · injection h with h; injection h with h1 h2; left; rw [← h1]
        · injection h with h; injection h with h1 h2; right; rw [← h1]; exact ⟨rfl, h2.symm⟩

/-- A `Create` under a key the cache and the cluster do not know stages the object. -/
theorem Create_fresh {α : Type} [Managed α] (cache : ObjectCache) (f : Faults)
    (c : Cluster) (identity : ResourceIdent) (nn : types.NamespacedName) (object : α)
    (h1 : cache.findStaged identity nn = none) (h2 : cache.findFetched identity nn = none)
    (h3 : f.cacheGet identity nn = none) (h4 : c.lookupObject nn (Managed.wrap object) = none) :
    cache.Create f c identity nn object =
      .ok ({ cache with staged := cache.staged ++
        [{ identity := identity, namespacedName := nn,
           desiredObject := Managed.wrap object, origin := .Created }] }, object) := by
  unfold ObjectCache.Create
  simp only [h1, h2, h3, h4]

/-- Claim C6 (naming contract): every entry that `InvokeJob` adds to the Object Cache is
the managed job named `<applicationName>-<jobDefinitionName>-<requestName>` in the
namespace of the request; when neither the cache nor the cluster knows that name the job
is staged and that name is recorded in `Status.Jobs`; the loop of `Reconcile` tests
membership in `Status.Jobs` with the same string before it calls `InvokeJob`; and equal
inputs give the equal name. -/
theorem InvokeJob_naming (x : Ext) (f : Faults) (cl : Cluster) (cache : ObjectCache)
    (job : crd.Job) (app : crd.ClowdApp) (env : crd.ClowdEnvironment)
    (cji : crd.ClowdJobInvocation) :
    (∀ e ∈ (InvokeJob x f cl cache job app env cji).cache.staged, e ∉ cache.staged →
      e.identity = ClowdJob ∧
      e.namespacedName =
        { Name := app.Name ++ "-" ++ job.Name ++ "-" ++ cji.Name, Namespace := cji.Namespace } ∧
      e.desiredObject.objectMeta.Name = app.Name ++ "-" ++ job.Name ++ "-" ++ cji.Name ∧
      e.desiredObject.objectMeta.Namespace = cji.Namespace ∧
      e.origin = .Created) ∧
    (cache.findStaged ClowdJob
        { Name := app.Name ++ "-" ++ job.Name ++ "-" ++ cji.Name, Namespace := cji.Namespace }
        = none →
      cache.findFetched ClowdJob
        { Name := app.Name ++ "-" ++ job.Name ++ "-" ++ cji.Name, Namespace := cji.Namespace }
        = none →
      f.cacheGet ClowdJob
        { Name := app.Name ++ "-" ++ job.Name ++ "-" ++ cji.Name, Namespace := cji.Namespace }
        = none →
      cl.lookupJob
        { Name := app.Name ++ "-" ++ job.Name ++ "-" ++ cji.Name, Namespace := cji.Namespace }
        = none →
      (InvokeJob x f cl cache job app env cji).err = none ∧
      (∃ e, (InvokeJob x f cl cache job app env cji).cache.staged = cache.staged ++ [e] ∧
        e.namespacedName =
          { Name := app.Name ++ "-" ++ job.Name ++ "-" ++ cji.Name,
            Namespace := cji.Namespace }) ∧
      (InvokeJob x f cl cache job app env cji).cji.Status.Jobs =
        some (cji.Status.Jobs.getD [] ++ [app.Name ++ "-" ++ job.Name ++ "-" ++ cji.Name])) ∧
    (∀ (jobName : String) (rest : List String), getJobFromName jobName app = .ok job →
      invokeJobs x f cl app env (jobName :: rest) cache cji =
        if contains cji.Status.Jobs (app.Name ++ "-" ++ job.Name ++ "-" ++ cji.Name) then
          invokeJobs x f cl app env rest cache cji
        else
          match (InvokeJob x f cl cache job app env cji).err with
          | some err => .ret { Requeue := true } (some err)
              (InvokeJob x f cl cache job app env cji).cache
              (InvokeJob x f cl cache job app env cji).cji
          | none => invokeJobs x f cl app env rest
              (InvokeJob x f cl cache job app env cji).cache
              (InvokeJob x f cl cache job app env cji).cji) ∧
    (∀ a b c a2 b2 c2 : String, a = a2 → b = b2 → c = c2 →
      sprintfDashed a b c = sprintfDashed a2 b2 c2) := by
  refine ⟨?_, ?_, ?_, ?_⟩
  · intro e he hnew
    unfold InvokeJob at he
    dsimp only at he
    split at he
    · exact absurd he hnew
    · rename_i cache2 j2 hc
      rcases Create_staged _ _ _ _ _ _ _ _ hc with h | ⟨h, -⟩
      · dsimp only at he
        rw [h] at he
        exact absurd he hnew
      · dsimp only at he
        rw [h] at he
        rcases List.mem_append.1 he with h1 | h1
        · exact absurd h1 hnew
        · rw [List.mem_singleton] at h1
          subst h1
          exact ⟨rfl, rfl, rfl, rfl, rfl⟩
  · intro h1 h2 h3 h4
    have h4' : cl.lookupObject
        { Name := app.Name ++ "-" ++ job.Name ++ "-" ++ cji.Name, Namespace := cji.Namespace }
        (Managed.wrap (jobProvider.CreateJobResource x cji env
          { Name := sprintfDashed app.Name job.Name cji.Name, Namespace := cji.Namespace }
          job {})) = none := by
      show Option.map Object.job (cl.lookupJob _) = none
      rw [h4]; rfl
    unfold InvokeJob
    dsimp only
    rw [show sprintfDashed app.Name job.Name cji.Name
        = app.Name ++ "-" ++ job.Name ++ "-" ++ cji.Name from rfl] at h4' ⊢
    rw [Create_fresh cache f cl ClowdJob _ _ h1 h2 h3 h4']
    exact ⟨rfl, ⟨_, rfl, rfl⟩, rfl⟩
  · intro jobName rest hjob
    rw [invokeJobs, hjob]
    rfl
  · intro a b c a2 b2 c2 h1 h2 h3
    rw [h1, h2, h3]

/-- Witness of claim C6: invoking job `a` of application `app` for request `req`. -/
theorem InvokeJob_naming_witness :
    (InvokeJob plainExt noFaults (bothConfigured "smoke" "view" "none") NewObjectCache
      { Name := "a" } ownerApp (testEnv "view" "none") freshRequest).err = none ∧
    (InvokeJob plainExt noFaults (bothConfigured "smoke" "view" "none") NewObjectCache
      { Name := "a" } ownerApp (testEnv "view" "none") freshRequest).cji.Status.Jobs =
      some ["app-a-req"] :=
  ⟨((InvokeJob_naming plainExt noFaults (bothConfigured "smoke" "view" "none") NewObjectCache
      { Name := "a" } ownerApp (testEnv "view" "none") freshRequest).2.1
      (by decide) (by decide) (by decide) (by decide)).1,
   ((InvokeJob_naming plainExt noFaults (bothConfigured "smoke" "view" "none") NewObjectCache
      { Name := "a" } ownerApp (testEnv "view" "none") freshRequest).2.1
      (by decide) (by decide) (by decide) (by decide)).2.2⟩

/-- Claim C7 (command construction): `constructIqeCommand` returns
`["iqe", "tests", "plugin", P, "-m", marker]` followed by `["-k", filter]` exactly when the
filter is non-empty, where `P` is the plugin identifier with every hyphen replaced by an
underscore (same length, no hyphen left). For plugin `my-plugin` and marker `smoke` the
command ends in `-m smoke` without filter and in `-m smoke -k foo` with filter `foo`, and the
plugin token is `my_plugin`. -/
theorem constructIqeCommand_spec (cji : crd.ClowdJobInvocation) (plugin : String) :
    constructIqeCommand cji plugin =
      .ok (["iqe", "tests", "plugin", replaceAllHyphens plugin,
            "-m", cji.Spec.Testing.Iqe.Marker] ++
           (if cji.Spec.Testing.Iqe.Filter = "" then []
            else ["-k", cji.Spec.Testing.Iqe.Filter])) ∧
    (replaceAllHyphens plugin).data =
      plugin.data.map (fun ch => if ch = '-' then '_' else ch) ∧
    '-' ∉ (replaceAllHyphens plugin).data ∧
    (replaceAllHyphens plugin).length = plugin.length ∧
    constructIqeCommand (testRequest "smoke" "") "my-plugin" =
      .ok ["iqe", "tests", "plugin", "my_plugin", "-m", "smoke"] ∧
    constructIqeCommand (testRequest "smoke" "foo") "my-plugin" =
      .ok ["iqe", "tests", "plugin", "my_plugin", "-m", "smoke", "-k", "foo"] := by
  refine ⟨?_, rfl, ?_, ?_, by rfl, by rfl⟩
  · unfold constructIqeCommand
    by_cases h : cji.Spec.Testing.Iqe.Filter = "" <;> simp [h]
  · show '-' ∉ plugin.data.map (fun ch => if ch = '-' then '_' else ch)
    intro hmem
    rw [List.mem_map] at hmem
    obtain ⟨ch, -, hch⟩ := hmem
    by_cases h : ch = '-'
    · rw [if_pos h] at hch
      exact absurd hch (by decide)
    · rw [if_neg h] at hch
      exact h hch
  · show (plugin.data.map (fun ch => if ch = '-' then '_' else ch)).length = plugin.data.length
    exact List.length_map _ _

/-- Claim C8 fails on the code: `constructIqeCommand` never returns an error, so a test
invocation with an empty marker is accepted. At the request with empty marker it returns the
command ending in `-m` and the empty string, `createIqeJobResource` returns no error, the
service account of the `edit` access level has been staged, and the job carries that
command. -/
theorem constructIqeCommand_accepts_empty_marker :
    (∀ (cji : crd.ClowdJobInvocation) (plugin : String),
      ∃ command, constructIqeCommand cji plugin = .ok command) ∧
    constructIqeCommand (testRequest "" "") "my-plugin" =
      .ok ["iqe", "tests", "plugin", "my_plugin", "-m", ""] ∧
    (createIqeJobResource plainExt noFaults (bothConfigured "" "edit" "none") NewObjectCache
      (testRequest "" "") (testEnv "edit" "none") ownerApp iqeKey {}).err = none ∧
    ((createIqeJobResource plainExt noFaults (bothConfigured "" "edit" "none") NewObjectCache
      (testRequest "" "") (testEnv "edit" "none") ownerApp iqeKey {}).cache.staged.map
        (fun e => (e.identity, e.namespacedName))) =
      [(svcAccounts.CoreAppServiceAccount, iqeKey)] ∧
    ((createIqeJobResource plainExt noFaults (bothConfigured "" "edit" "none") NewObjectCache
      (testRequest "" "") (testEnv "edit" "none") ownerApp iqeKey {}).j.Spec.Template.Spec.Containers.map
        (fun c => c.Command)) = [["iqe", "tests", "plugin", "my_plugin", "-m", ""]] := by
  refine ⟨fun cji plugin => ⟨_, rfl⟩, by rfl, by decide, by decide, by decide⟩

/-- The volumes and mounts that the configuration-access switch leaves in the job. -/
theorem configAccessSwitch_ok (x : Ext) (f : Faults) (cl : Cluster) (cache : ObjectCache)
    (cji : crd.ClowdJobInvocation) (env : crd.ClowdEnvironment) (app : crd.ClowdApp)
    (nn : types.NamespacedName) (c : core.Container) (j : batchv1.Job)
    (hc : c.VolumeMounts = []) (hj : j.Spec.Template.Spec.Volumes = [])
    (hok : (configAccessSwitch x f cl cache cji env app nn c j).err = none) :
    (env.Spec.Providers.Testing.ConfigAccess = "environment" →
      (configAccessSwitch x f cl cache cji env app nn c j).j.Spec.Template.Spec.Volumes =
        [{ Name := "cdenvconfig",
           VolumeSource := { Secret := some { SecretName := nn.Name } } },
         { Name := "config-secret",
           VolumeSource := { Secret := some { SecretName := cji.Spec.AppName } } }] ∧
      (configAccessSwitch x f cl cache cji env app nn c j).j.Spec.Template.Spec.Containers =
        [{ c with VolumeMounts := [{ Name := "cdenvconfig", MountPath := "/cdenv" },
                                   { Name := "config-secret", MountPath := "/cdapp" }] }]) ∧
    (env.Spec.Providers.Testing.ConfigAccess = "app" →
      (configAccessSwitch x f cl cache cji env app nn c j).j.Spec.Template.Spec.Volumes =
        [{ Name := "config-secret",
           VolumeSource := { Secret := some { SecretName := cji.Spec.AppName } } }] ∧
      (configAccessSwitch x f cl cache cji env app nn c j).j.Spec.Template.Spec.Containers =
        [{ c with VolumeMounts := [{ Name := "config-secret", MountPath := "/cdapp" }] }]) ∧
    (env.Spec.Providers.Testing.ConfigAccess = "none" →
      (configAccessSwitch x f cl cache cji env app nn c j).j.Spec.Template.Spec.Volumes = [] ∧
      (configAccessSwitch x f cl cache cji env app nn c j).j.Spec.Template.Spec.Containers =
        [c]) := by
  refine ⟨?_, ?_, ?_⟩
  · intro h
    unfold configAccessSwitch at hok ⊢
    simp only [h, if_true] at hok ⊢
    generalize createAndApplyIqeSecret x f cl cache cji app env.Name = r at hok ⊢
    obtain ⟨e, cache2⟩ := r
    cases e with
    | some err => cases hok
    | none => simp [mountAppConfig, hc, hj]
  · intro h
    unfold configAccessSwitch
    simp [h, mountAppConfig, hc, hj]
  · intro h
    unfold configAccessSwitch
    simp [h, hj]

/-- Claim C9 (cascading config-access): in the test job that `createIqeJobResource` builds
under the name `<requestName>-iqe`, with `configAccess = "environment"` the pod has exactly
the two secret volumes `cdenvconfig` (the aggregated secret `<requestName>-iqe`) and
`config-secret` (the secret named after the owning application) and its container the two
mounts `/cdenv` and `/cdapp`; with `"app"` only the latter volume and mount; with `"none"`
no volume and no mount. -/
theorem createIqeJobResource_config_access (x : Ext) (f : Faults) (cl : Cluster)
    (cache : ObjectCache) (cji : crd.ClowdJobInvocation) (env : crd.ClowdEnvironment)
    (app : crd.ClowdApp) (nn : types.NamespacedName) (j : batchv1.Job)
    (hnn : nn.Name = cji.Name ++ "-iqe")
    (hok : (createIqeJobResource x f cl cache cji env app nn j).err = none) :
    (env.Spec.Providers.Testing.ConfigAccess = "environment" →
      (createIqeJobResource x f cl cache cji env app nn j).j.Spec.Template.Spec.Volumes =
        [{ Name := "cdenvconfig",
           VolumeSource := { Secret := some { SecretName := cji.Name ++ "-iqe" } } },
         { Name := "config-secret",
           VolumeSource := { Secret := some { SecretName := cji.Spec.AppName } } }] ∧
      (createIqeJobResource x f cl cache cji env app nn j).j.Spec.Template.Spec.Containers.map
          (fun c => c.VolumeMounts) =
        [[{ Name := "cdenvconfig", MountPath := "/cdenv" },
          { Name := "config-secret", MountPath := "/cdapp" }]]) ∧
    (env.Spec.Providers.Testing.ConfigAccess = "app" →
      (createIqeJobResource x f cl cache cji env app nn j).j.Spec.Template.Spec.Volumes =
        [{ Name := "config-secret",
           VolumeSource := { Secret := some { SecretName := cji.Spec.AppName } } }] ∧
      (createIqeJobResource x f cl cache cji env app nn j).j.Spec.Template.Spec.Containers.map
          (fun c => c.VolumeMounts) =
        [[{ Name := "config-secret", MountPath := "/cdapp" }]]) ∧
    (env.Spec.Providers.Testing.ConfigAccess = "none" →
      (createIqeJobResource x f cl cache cji env app nn j).j.Spec.Template.Spec.Volumes = [] ∧
      (createIqeJobResource x f cl cache cji env app nn j).j.Spec.Template.Spec.Containers.map
          (fun c => c.VolumeMounts) = [[]]) := by
  unfold createIqeJobResource at hok ⊢
  dsimp only at hok ⊢
  generalize accessLevelSwitch x f cl cache env app nn _ = sw at hok ⊢
  cases hsw : sw.err with
  | some err => rw [hsw] at hok; cases hok
  | none =>
    rw [hsw] at hok
    simp only [hsw]
    unfold constructIqeCommand at hok ⊢
    dsimp only at hok ⊢
    obtain ⟨h1, h2, h3⟩ := configAccessSwitch_ok x f cl sw.cache cji env app nn _ _ rfl rfl hok
    refine ⟨fun h => ?_, fun h => ?_, fun h => ?_⟩
    · rw [(h1 h).1, (h1 h).2, hnn]
      exact ⟨rfl, rfl⟩
    · rw [(h2 h).1, (h2 h).2]
      exact ⟨rfl, rfl⟩
    · rw [(h3 h).1, (h3 h).2]
      exact ⟨rfl, rfl⟩

/-- Witness of claim C9: the three configuration-access levels on a configured cluster. -/
theorem createIqeJobResource_config_access_witness :
    (createIqeJobResource plainExt noFaults (bothConfigured "smoke" "view" "environment")
      NewObjectCache (testRequest "smoke" "") (testEnv "view" "environment") ownerApp iqeKey
      {}).err = none ∧
    (createIqeJobResource plainExt noFaults (bothConfigured "smoke" "view" "environment")
      NewObjectCache (testRequest "smoke" "") (testEnv "view" "environment") ownerApp iqeKey
      {}).j.Spec.Template.Spec.Volumes =
      [{ Name := "cdenvconfig", VolumeSource := { Secret := some { SecretName := "req-iqe" } } },
       { Name := "config-secret", VolumeSource := { Secret := some { SecretName := "app" } } }] ∧
    (createIqeJobResource plainExt noFaults (bothConfigured "smoke" "view" "app")
      NewObjectCache (testRequest "smoke" "") (testEnv "view" "app") ownerApp iqeKey
      {}).j.Spec.Template.Spec.Volumes =
      [{ Name := "config-secret", VolumeSource := { Secret := some { SecretName := "app" } } }] ∧
    (createIqeJobResource plainExt noFaults (bothConfigured "smoke" "view" "none")
      NewObjectCache (testRequest "smoke" "") (testEnv "view" "none") ownerApp iqeKey
      {}).j.Spec.Template.Spec.Volumes = [] :=
  ⟨by decide,
   ((createIqeJobResource_config_access plainExt noFaults
      (bothConfigured "smoke" "view" "environment") NewObjectCache (testRequest "smoke" "")
      (testEnv "view" "environment") ownerApp iqeKey {} (by decide) (by decide)).1
      (by decide)).1,
   ((createIqeJobResource_config_access plainExt noFaults
      (bothConfigured "smoke" "view" "app") NewObjectCache (testRequest "smoke" "")
      (testEnv "view" "app") ownerApp iqeKey {} (by decide) (by decide)).2.1
      (by decide)).1,
   ((createIqeJobResource_config_access plainExt noFaults
      (bothConfigured "smoke" "view" "none") NewObjectCache (testRequest "smoke" "")
      (testEnv "view" "none") ownerApp iqeKey {} (by decide) (by decide)).2.2
      (by decide)).1⟩

/-- Fetching a missing or malformed configuration fails, whatever the transport does. -/
theorem fetchConfig_missing (x : Ext) (f : Faults) (cl : Cluster) (a : crd.ClowdApp)
    (h : configMissingOrMalformed x cl a = true) :
    ∃ err, fetchConfig x f cl { Name := a.Name, Namespace := a.Namespace } = .error err := by
  unfold configMissingOrMalformed at h
  unfold fetchConfig clientGetSecret
  cases hf : f.getSecret { Name := a.Name, Namespace := a.Namespace } with
  | some err => exact ⟨err, rfl⟩
  | none =>
    dsimp only
    cases hs : cl.lookupSecret { Name := a.Name, Namespace := a.Namespace } with
    | none => exact ⟨_, rfl⟩
    | some s =>
      rw [hs] at h
      dsimp only at h ⊢
      cases hu : x.jsonUnmarshal (mapGet s.Data "cdappconfig.json") with
      | error err => exact ⟨err, rfl⟩
      | ok cfg => rw [hu] at h; cases h

/-- The loop over the applications fails as soon as one configuration cannot be fetched. -/
theorem fetchAppConfigs_missing (x : Ext) (f : Faults) (cl : Cluster)
    (items : List crd.ClowdApp) (appConfigs : List (String × config.AppConfig))
    (h : ∃ a ∈ items, configMissingOrMalformed x cl a = true) :
    ∃ err, fetchAppConfigs x f cl items appConfigs = .error err := by
  induction items generalizing appConfigs with
  | nil =>
    obtain ⟨a, ha, -⟩ := h
    cases ha
  | cons b rest ih =>
    unfold fetchAppConfigs
    cases hb : fetchConfig x f cl { Name := b.Name, Namespace := b.Namespace } with
    | error err => exact ⟨err, rfl⟩
    | ok cfg =>
      dsimp only
      apply ih
      obtain ⟨a, ha, hm⟩ := h
      rcases List.mem_cons.1 ha with hab | hin
      · subst hab
        obtain ⟨err, he⟩ := fetchConfig_missing x f cl a hm
        rw [he] at hb
        cases hb
      · exact ⟨a, hin, hm⟩

/-- Counterexample to claim C10: the configuration secret of the sibling application is
missing; `createAndApplyIqeSecret` returns the error, and on return the Object Cache holds a
staged to-be-created entry under the identity `CoreIqeSecret`. -/
theorem createAndApplyIqeSecret_stages_placeholder :
    (siblingApp ∈ (siblingUnconfigured "smoke" "view" "environment").apps ∧
      siblingApp.Spec.EnvName = ownerApp.Spec.EnvName ∧
      (siblingUnconfigured "smoke" "view" "environment").lookupSecret
        { Name := siblingApp.Name, Namespace := siblingApp.Namespace } = none) ∧
    (createAndApplyIqeSecret plainExt noFaults (siblingUnconfigured "smoke" "view" "environment")
      NewObjectCache (testRequest "smoke" "") ownerApp "env").1 = some "secret not found" ∧
    (createAndApplyIqeSecret plainExt noFaults (siblingUnconfigured "smoke" "view" "environment")
      NewObjectCache (testRequest "smoke" "") ownerApp "env").2.findStaged CoreIqeSecret iqeKey =
      some { identity := CoreIqeSecret, namespacedName := iqeKey,
             desiredObject := .secret {}, origin := .Created } := by
  decide

/-- Claim C10 as amended: when the configuration secret of at least one application of the
environment is missing or malformed, `createAndApplyIqeSecret` returns an error, and the only
entry it may have staged is the empty to-be-created placeholder of its initial create under
`CoreIqeSecret` and `<requestName>-iqe`, a secret without name, owner or data: no aggregated
payload is staged. -/
theorem createAndApplyIqeSecret_missing_config (x : Ext) (f : Faults) (cl : Cluster)
    (cache : ObjectCache) (cji : crd.ClowdJobInvocation) (app : crd.ClowdApp)
    (envName : String)
    (hmissing : ∃ a ∈ cl.apps, a.Spec.EnvName = app.Spec.EnvName ∧
      configMissingOrMalformed x cl a = true) :
    (createAndApplyIqeSecret x f cl cache cji app envName).1 ≠ none ∧
    ((createAndApplyIqeSecret x f cl cache cji app envName).2.staged = cache.staged ∨
     (createAndApplyIqeSecret x f cl cache cji app envName).2.staged = cache.staged ++
       [{ identity := CoreIqeSecret,
          namespacedName := { Name := cji.Name ++ "-iqe", Namespace := cji.Namespace },
          desiredObject := .secret {}, origin := .Created }]) := by
  unfold createAndApplyIqeSecret crd.GetAppInSameEnv
  cases hl : f.listApps with
  | some err => exact ⟨by simp, Or.inl rfl⟩
  | none =>
    dsimp only
    cases hc : cache.Create f cl CoreIqeSecret
        { Name := sprintfIqe cji.Name, Namespace := cji.Namespace } ({} : core.Secret) with
    | error err => exact ⟨by simp, Or.inl rfl⟩
    | ok r =>
      obtain ⟨cache2, s2⟩ := r
      have hst := Create_staged _ _ _ _ _ _ _ _ hc
      have hfail : ∃ err, fetchAppConfigs x f cl
          (cl.apps.filter (fun a => a.Spec.EnvName == app.Spec.EnvName)) [] = .error err := by
        apply fetchAppConfigs_missing
        obtain ⟨a, ha, he, hm⟩ := hmissing
        exact ⟨a, List.mem_filter.2 ⟨ha, by simp [he]⟩, hm⟩
      obtain ⟨err, herr⟩ := hfail
      dsimp only
      rw [herr]
      refine ⟨by simp, ?_⟩
      rcases hst with h | ⟨h, -⟩
      · exact Or.inl h
      · exact Or.inr h

/-- Witness of claim C10 as amended: the sibling application has no configuration secret. -/
theorem createAndApplyIqeSecret_missing_config_witness :
    (∃ a ∈ (siblingUnconfigured "smoke" "view" "environment").apps,
      a.Spec.EnvName = ownerApp.Spec.EnvName ∧
      configMissingOrMalformed plainExt (siblingUnconfigured "smoke" "view" "environment") a
        = true) ∧
    (createAndApplyIqeSecret plainExt noFaults (siblingUnconfigured "smoke" "view" "environment")
      NewObjectCache (testRequest "smoke" "") ownerApp "env").1 ≠ none :=
  ⟨⟨siblingApp, by decide, by decide, by decide⟩,
   (createAndApplyIqeSecret_missing_config plainExt noFaults
      (siblingUnconfigured "smoke" "view" "environment") NewObjectCache
      (testRequest "smoke" "") ownerApp "env"
      ⟨siblingApp, by decide, by decide, by decide⟩).1⟩

/-- The loop of `getJobFromName` returns the first definition of the requested name. -/
theorem getJobFromNameLoop_some (jobName : String) (jobs : List crd.Job) (j : crd.Job) :
    getJobFromNameLoop jobName jobs = some j ↔
      ∃ before after, jobs = before ++ j :: after ∧ j.Name = jobName ∧
        ∀ k ∈ before, k.Name ≠ jobName := by
  induction jobs with
  | nil =>
    constructor
    · intro h; cases h
    · rintro ⟨before, after, h, -⟩
      cases before <;> cases h
  | cons a rest ih =>
    unfold getJobFromNameLoop
    by_cases ha : a.Name = jobName
    · rw [if_pos ha]
      constructor
      · intro h
        injection h with h
        subst h
        exact ⟨[], rest, rfl, ha, by simp⟩
      · rintro ⟨before, after, h, hj, hb⟩
        cases before with
        | nil =>
          simp only [List.nil_append, List.cons.injEq] at h
          rw [h.1]
        | cons b before2 =>
          simp only [List.cons_append, List.cons.injEq] at h
          exact absurd (h.1 ▸ ha) (hb b (by simp))
    · rw [if_neg ha, ih]
      constructor
      · rintro ⟨before, after, h, hj, hb⟩
        refine ⟨a :: before, after, by rw [h]; rfl, hj, ?_⟩
        intro k hk
        rcases List.mem_cons.1 hk with h1 | h1
        · rw [h1]; exact ha
        · exact hb k h1
      · rintro ⟨before, after, h, hj, hb⟩
        cases before with
        | nil =>
          simp only [List.nil_append, List.cons.injEq] at h
          exact absurd (h.1 ▸ hj) ha
        | cons b before2 =>
          simp only [List.cons_append, List.cons.injEq] at h
          exact ⟨before2, after, h.2, hj, fun k hk => hb k (by simp [hk])⟩

/-- The loop of `getJobFromName` finds nothing exactly when no definition has the name. -/
theorem getJobFromNameLoop_none (jobName : String) (jobs : List crd.Job) :
    getJobFromNameLoop jobName jobs = none ↔ ∀ j ∈ jobs, j.Name ≠ jobName := by
  induction jobs with
  | nil => simp [getJobFromNameLoop]
  | cons a rest ih =>
    unfold getJobFromNameLoop
    by_cases ha : a.Name = jobName
    · rw [if_pos ha]
      constructor
      · intro h; cases h
      · intro h; exact absurd ha (h a (by simp))
    · rw [if_neg ha, ih]
      constructor
      · intro h j hj
        rcases List.mem_cons.1 hj with h1 | h1
        · rw [h1]; exact ha
        · exact h j h1
      · intro h j hj
        exact h j (by simp [hj])

/-- Claim C15 (job definition lookup): `getJobFromName` returns an error if and only if no
job definition in the declared job list of the application has the requested name; when it
returns a definition, without error, that is the first one in declaration order whose name
equals the requested name, and it does so whenever some definition has that name. -/
theorem getJobFromName_spec (jobName : String) (app : crd.ClowdApp) :
    ((∃ err, getJobFromName jobName app = .error err) ↔
      ∀ j ∈ app.Spec.Jobs, j.Name ≠ jobName) ∧
    (∀ j, getJobFromName jobName app = .ok j ↔
      ∃ before after, app.Spec.Jobs = before ++ j :: after ∧ j.Name = jobName ∧
        ∀ k ∈ before, k.Name ≠ jobName) ∧
    ((∃ j ∈ app.Spec.Jobs, j.Name = jobName) → ∃ j, getJobFromName jobName app = .ok j) := by
  refine ⟨?_, ?_, ?_⟩
  · rw [← getJobFromNameLoop_none]
    unfold getJobFromName
    cases h : getJobFromNameLoop jobName app.Spec.Jobs with
    | none => simp
    | some j => simp
  · intro j
    rw [← getJobFromNameLoop_some]
    unfold getJobFromName
    cases h : getJobFromNameLoop jobName app.Spec.Jobs with
    | none => simp
    | some k => simp
  · rintro ⟨j, hj, hn⟩
    unfold getJobFromName
    cases h : getJobFromNameLoop jobName app.Spec.Jobs with
    | none => exact absurd hn ((getJobFromNameLoop_none _ _).1 h j hj)
    | some k => exact ⟨k, rfl⟩

/-- Witness of claim C15: job `b` of the application `app` is found, job `z` is not. -/
theorem getJobFromName_spec_witness :
    (∃ j ∈ ownerApp.Spec.Jobs, j.Name = "b") ∧
    (∃ j, getJobFromName "b" ownerApp = .ok j) ∧
    (∀ j ∈ ownerApp.Spec.Jobs, j.Name ≠ "z") ∧
    (∃ err, getJobFromName "z" ownerApp = .error err) :=
  ⟨⟨{ Name := "b" }, by decide, rfl⟩,
   (getJobFromName_spec "b" ownerApp).2.2 ⟨{ Name := "b" }, by decide, rfl⟩,
   by decide,
   (getJobFromName_spec "z" ownerApp).1.2 (by decide)⟩

/-- Membership in a Go map after the write `m[key] = v`. -/
theorem mem_mapSet {β : Type} (m : List (String × β)) (key : String) (v : β)
    (k : String) (w : β) :
    (k, w) ∈ mapSet m key v ↔ (k ≠ key ∧ (k, w) ∈ m) ∨ (k = key ∧ w = v) := by
  unfold mapSet
  by_cases hany : m.any (fun e => e.1 == key) = true
  · rw [if_pos hany]
    rw [List.any_eq_true] at hany
    obtain ⟨e0, he0, hk0⟩ := hany
    have hk0' : e0.1 = key := eq_of_beq hk0
    rw [List.mem_map]
    constructor
    · rintro ⟨e, he, heq⟩
      by_cases hek : e.1 = key
      · have hb : (e.1 == key) = true := by rw [hek]; exact beq_self_eq_true key
        rw [if_pos hb] at heq
        injection heq with h1 h2
        exact Or.inr ⟨h1.symm, h2.symm⟩
      · have hb : ¬ ((e.1 == key) = true) := fun hb => hek (eq_of_beq hb)
        rw [if_neg hb] at heq
        subst heq
        exact Or.inl ⟨hek, he⟩
    · rintro (⟨hne, hmem⟩ | ⟨hk, hw⟩)
      · refine ⟨(k, w), hmem, ?_⟩
        have hb : ¬ (((k, w).1 == key) = true) := fun hb => hne (eq_of_beq hb)
        rw [if_neg hb]
      · refine ⟨e0, he0, ?_⟩
        rw [if_pos hk0, hk, hw]
  · rw [if_neg hany]
    have hall : ∀ e ∈ m, e.1 ≠ key := by
      intro e he hek
      apply hany
      rw [List.any_eq_true]
      exact ⟨e, he, by rw [hek]; exact beq_self_eq_true key⟩
    rw [List.mem_append, List.mem_singleton]
    constructor
    · rintro (hmem | heq)
      · exact Or.inl ⟨hall (k, w) hmem, hmem⟩
      · injection heq with h1 h2
        exact Or.inr ⟨h1, h2⟩
    · rintro (⟨-, hmem⟩ | ⟨hk, hw⟩)
      · exact Or.inl hmem
      · exact Or.inr (by rw [hk, hw])

/-- A Go map keeps one entry per key under the write `m[key] = v`. -/
theorem mapSet_keys_nodup {β : Type} (m : List (String × β)) (key : String) (v : β)
    (h : (m.map Prod.fst).Nodup) : ((mapSet m key v).map Prod.fst).Nodup := by
  unfold mapSet
  by_cases hany : m.any (fun e => e.1 == key) = true
  · rw [if_pos hany]
    have hsame : (m.map (fun e => if (e.1 == key) = true then (key, v) else e)).map Prod.fst
        = m.map Prod.fst := by
      rw [List.map_map]
      apply List.map_congr_left
      intro e _
      show (if (e.1 == key) = true then (key, v) else e).1 = e.1
      by_cases hb : (e.1 == key) = true
      · rw [if_pos hb]; exact (eq_of_beq hb).symm
      · rw [if_neg hb]
    rw [hsame]
    exact h
  · rw [if_neg hany]
    rw [List.map_append, List.map_singleton]
    apply List.Nodup.append h (List.nodup_singleton _)
    intro k hk hk2
    rw [List.mem_singleton] at hk2
    rw [List.mem_map] at hk
    obtain ⟨e, he, hek⟩ := hk
    apply hany
    rw [List.any_eq_true]
    exact ⟨e, he, by rw [hek, hk2]; exact beq_self_eq_true key⟩

/-- What the loop of `createAndApplyIqeSecret` leaves in `appConfigs` when it ends without
error: one entry per name of an application, holding the fetched configuration of an
application of that name. -/
theorem fetchAppConfigs_ok (x : Ext) (f : Faults) (cl : Cluster) (items : List crd.ClowdApp) :
    ∀ (seen : List crd.ClowdApp) (acc M : List (String × config.AppConfig)),
    fetchAppConfigs x f cl items acc = .ok M →
    (∀ k w, (k, w) ∈ acc → ∃ a ∈ seen, a.Name = k ∧
      fetchConfig x f cl { Name := a.Name, Namespace := a.Namespace } = .ok w) →
    (∀ a ∈ seen, ∃ w, (a.Name, w) ∈ acc) →
    (acc.map Prod.fst).Nodup →
    (∀ k w, (k, w) ∈ M → ∃ a ∈ seen ++ items, a.Name = k ∧
      fetchConfig x f cl { Name := a.Name, Namespace := a.Namespace } = .ok w) ∧
    (∀ a ∈ seen ++ items, ∃ w, (a.Name, w) ∈ M) ∧
    (M.map Prod.fst).Nodup := by
  induction items with
  | nil =>
    intro seen acc M h h1 h2 h3
    unfold fetchAppConfigs at h
    injection h with h
    subst h
    rw [List.append_nil]
    exact ⟨h1, h2, h3⟩
  | cons b rest ih =>
    intro seen acc M h h1 h2 h3
    unfold fetchAppConfigs at h
    cases hb : fetchConfig x f cl { Name := b.Name, Namespace := b.Namespace } with
    | error err => rw [hb] at h; cases h
    | ok cfg =>
      rw [hb] at h
      dsimp only at h
      have hres := ih (seen ++ [b]) (mapSet acc b.Name cfg) M h
        (by
          intro k w hkw
          rcases (mem_mapSet _ _ _ _ _).1 hkw with ⟨-, hmem⟩ | ⟨hk, hw⟩
          · obtain ⟨a, ha, han, haf⟩ := h1 k w hmem
            exact ⟨a, List.mem_append_left _ ha, han, haf⟩
          · exact ⟨b, by simp, hk.symm, by rw [hw]; exact hb⟩)
        (by
          intro a ha
          rcases List.mem_append.1 ha with ha | ha
          · obtain ⟨w, hw⟩ := h2 a ha
            by_cases hab : a.Name = b.Name
            · exact ⟨cfg, (mem_mapSet _ _ _ _ _).2 (Or.inr ⟨hab, rfl⟩)⟩
            · exact ⟨w, (mem_mapSet _ _ _ _ _).2 (Or.inl ⟨hab, hw⟩)⟩
          · rw [List.mem_singleton] at ha
            subst ha
            exact ⟨cfg, (mem_mapSet _ _ _ _ _).2 (Or.inr ⟨rfl, rfl⟩)⟩)
        (mapSet_keys_nodup _ _ _ h3)
      rw [List.append_assoc, List.singleton_append] at hres
      exact hres

/-- A successful `Update` leaves a staged entry under the key of the object that holds the
object. -/
theorem Update_staged {α : Type} [Managed α] (cache cache2 : ObjectCache)
    (identity : ResourceIdent) (object : α)
    (h : cache.Update identity object = .ok cache2) :
    ∃ e ∈ cache2.staged, e.identity = identity ∧
      e.namespacedName = { Name := (Managed.wrap object).objectMeta.Name,
                           Namespace := (Managed.wrap object).objectMeta.Namespace } ∧
      e.desiredObject = Managed.wrap object := by
  unfold ObjectCache.Update at h
  dsimp only at h
  cases hs : cache.findStaged identity
      { Name := (Managed.wrap object).objectMeta.Name,
        Namespace := (Managed.wrap object).objectMeta.Namespace } with
  | some e0 =>
    rw [hs] at h
    injection h with h
    subst h
    unfold ObjectCache.findStaged at hs
    have hmem := List.mem_of_find?_eq_some hs
    have hp := List.find?_some hs
    rw [Bool.and_eq_true] at hp
    refine ⟨{ e0 with desiredObject := Managed.wrap object }, ?_, eq_of_beq hp.1,
      eq_of_beq hp.2, rfl⟩
    dsimp only
    rw [List.mem_map]
    refine ⟨e0, hmem, ?_⟩
    rw [if_pos (by rw [Bool.and_eq_true]; exact hp)]
  | none =>
    rw [hs] at h
    dsimp only at h
    cases hf : cache.findFetched identity
        { Name := (Managed.wrap object).objectMeta.Name,
          Namespace := (Managed.wrap object).objectMeta.Namespace } with
    | some o =>
      rw [hf] at h
      injection h with h
      subst h
      exact ⟨_, List.mem_append_right _ (List.mem_singleton.2 rfl), rfl, rfl, rfl⟩
    | none =>
      rw [hf] at h
      cases h

/-- Claim C11 as amended (secret payload shape): when `createAndApplyIqeSecret` returns
without error, the aggregated secret it has staged under `CoreIqeSecret` and
`<requestName>-iqe` has exactly one data entry, keyed `cdenvconfig.json`, whose value is the
JSON encoding of the map with the single key `cdappconfigs` and value `M`, where `M` has
exactly one entry per name of an application of the environment, every entry holding the
configuration fetched for an application of that name; and when the applications of the
environment have pairwise distinct names, the entry under the name of each application is
the configuration of that very application, and no other. -/
theorem createAndApplyIqeSecret_payload (x : Ext) (f : Faults) (cl : Cluster)
    (cache : ObjectCache) (cji : crd.ClowdJobInvocation) (app : crd.ClowdApp)
    (envName : String)
    (hok : (createAndApplyIqeSecret x f cl cache cji app envName).1 = none) :
    ∃ e ∈ (createAndApplyIqeSecret x f cl cache cji app envName).2.staged,
    ∃ (s : core.Secret) (doc : String) (M : List (String × config.AppConfig)),
      e.identity = CoreIqeSecret ∧
      e.namespacedName = { Name := cji.Name ++ "-iqe", Namespace := cji.Namespace } ∧
      e.desiredObject = .secret s ∧
      s.ObjectMeta.Name = cji.Name ++ "-iqe" ∧
      s.Data = [("cdenvconfig.json", doc)] ∧
      x.jsonMarshal [("cdappconfigs", M)] = .ok doc ∧
      (∀ a ∈ cl.apps, a.Spec.EnvName = app.Spec.EnvName → ∃ cfg, (a.Name, cfg) ∈ M) ∧
      (∀ k cfg, (k, cfg) ∈ M → ∃ a ∈ cl.apps, a.Spec.EnvName = app.Spec.EnvName ∧
        a.Name = k ∧ fetchConfig x f cl { Name := a.Name, Namespace := a.Namespace } = .ok cfg) ∧
      (M.map Prod.fst).Nodup ∧
      (((cl.apps.filter (fun a => a.Spec.EnvName == app.Spec.EnvName)).map
          (fun a => a.Name)).Nodup →
        ∀ a ∈ cl.apps, a.Spec.EnvName = app.Spec.EnvName →
          ∃ cfg, fetchConfig x f cl { Name := a.Name, Namespace := a.Namespace } = .ok cfg ∧
            (a.Name, cfg) ∈ M ∧ ∀ other, (a.Name, other) ∈ M → other = cfg) := by
  unfold createAndApplyIqeSecret crd.GetAppInSameEnv at hok ⊢
  cases hl : f.listApps with
  | some err => rw [hl] at hok; cases hok
  | none =>
    rw [hl] at hok
    dsimp only at hok ⊢
    cases hc : cache.Create f cl CoreIqeSecret
        { Name := sprintfIqe cji.Name, Namespace := cji.Namespace } ({} : core.Secret) with
    | error err => rw [hc] at hok; cases hok
    | ok r =>
      obtain ⟨cache2, s2⟩ := r
      rw [hc] at hok
      dsimp only at hok ⊢
      cases hfc : fetchAppConfigs x f cl
          (cl.apps.filter (fun a => a.Spec.EnvName == app.Spec.EnvName)) [] with
      | error err => rw [hfc] at hok; cases hok
      | ok M =>
        rw [hfc] at hok
        dsimp only at hok ⊢
        cases hm : x.jsonMarshal [("cdappconfigs", M)] with
        | error err => rw [hm] at hok; cases hok
        | ok doc =>
          rw [hm] at hok
          dsimp only at hok ⊢
          generalize hu : cache2.Update CoreIqeSecret (_ : core.Secret) = u at hok ⊢
          cases u with
          | error err => cases hok
          | ok cache3 =>
            obtain ⟨e, he, hid, hnn, hobj⟩ := Update_staged cache2 cache3 CoreIqeSecret _ hu
            obtain ⟨hM1, hM2, hM3⟩ := fetchAppConfigs_ok x f cl _ [] [] M hfc
              (by intro k w h; cases h) (by intro a h; cases h) List.nodup_nil
            rw [List.nil_append] at hM1 hM2
            refine ⟨e, he, _, doc, M, hid, ?_, hobj, ?_, ?_, hm, ?_, ?_, hM3, ?_⟩
            · rw [hnn]; rfl
            · rfl
            · rfl
            · intro a ha henv
              exact hM2 a (List.mem_filter.2 ⟨ha, by simp [henv]⟩)
            · intro k cfg hk
              obtain ⟨a, ha, han, haf⟩ := hM1 k cfg hk
              obtain ⟨ha1, ha2⟩ := List.mem_filter.1 ha
              exact ⟨a, ha1, by simpa using ha2, han, haf⟩
            · intro hdistinct a ha henv
              have hsib : a ∈ cl.apps.filter (fun a => a.Spec.EnvName == app.Spec.EnvName) :=
                List.mem_filter.2 ⟨ha, by simp [henv]⟩
              obtain ⟨w, hw⟩ := hM2 a hsib
              obtain ⟨b, hb, hbn, hbf⟩ := hM1 a.Name w hw
              have hba : b = a := List.inj_on_of_nodup_map hdistinct hb hsib hbn
              rw [hba] at hbf
              refine ⟨w, hbf, hw, ?_⟩
              intro other hother
              have hpair : (a.Name, other) = (a.Name, w) :=
                List.inj_on_of_nodup_map hM3 hother hw rfl
              injection hpair

/-- Counterexample to claim C11. First input: both applications of the environment are
configured and `createAndApplyIqeSecret` returns without error; the one data entry of the
staged secret is keyed `cdenvconfig.json`, and the secret has no entry keyed
`aggregated-config.json`. Second input: the applications `ns/app` and `ns2/app` of the
environment bear the same name; `createAndApplyIqeSecret` returns without error, the
configuration of `ns/app` is `app-config`, and the staged document holds under `app` the
configuration `namesake-config` of `ns2/app` only. -/
theorem createAndApplyIqeSecret_key_is_cdenvconfig :
    (createAndApplyIqeSecret plainExt noFaults (bothConfigured "smoke" "view" "environment")
      NewObjectCache (testRequest "smoke" "") ownerApp "env").1 = none ∧
    (createAndApplyIqeSecret plainExt noFaults (bothConfigured "smoke" "view" "environment")
      NewObjectCache (testRequest "smoke" "") ownerApp "env").2.staged =
      [{ identity := CoreIqeSecret, namespacedName := iqeKey,
         desiredObject := .secret
           { ObjectMeta := { Name := "req-iqe", Namespace := "ns",
                             OwnerReferences := [{ Kind := "ClowdJobInvocation", Name := "req" }] },
             Data := [("cdenvconfig.json", "cdappconfigs:app+other")] },
         origin := .Created }] ∧
    "aggregated-config.json" ∉
      ([("cdenvconfig.json", "cdappconfigs:app+other")] : List (String × String)).map
        Prod.fst ∧
    fetchConfig verboseExt noFaults namesakeCluster
      { Name := ownerApp.Name, Namespace := ownerApp.Namespace } =
      .ok { settings := [("doc", "app-config")] } ∧
    (createAndApplyIqeSecret verboseExt noFaults namesakeCluster
      NewObjectCache (testRequest "smoke" "") ownerApp "env").1 = none ∧
    (createAndApplyIqeSecret verboseExt noFaults namesakeCluster
      NewObjectCache (testRequest "smoke" "") ownerApp "env").2.staged =
      [{ identity := CoreIqeSecret, namespacedName := iqeKey,
         desiredObject := .secret
           { ObjectMeta := { Name := "req-iqe", Namespace := "ns",
                             OwnerReferences := [{ Kind := "ClowdJobInvocation", Name := "req" }] },
             Data := [("cdenvconfig.json", "cdappconfigs:app=namesake-config")] },
         origin := .Created }] := by
  refine ⟨by decide, by decide, by decide, by rfl, by decide, by decide⟩

/-- Witness of claim C11 as amended: both applications of the environment are configured
and bear distinct names; the entry under the name of the sibling application is its own
configuration. -/
theorem createAndApplyIqeSecret_payload_witness :
    (createAndApplyIqeSecret plainExt noFaults (bothConfigured "smoke" "view" "environment")
      NewObjectCache (testRequest "smoke" "") ownerApp "env").1 = none ∧
    (((bothConfigured "smoke" "view" "environment").apps.filter
        (fun a => a.Spec.EnvName == ownerApp.Spec.EnvName)).map (fun a => a.Name)).Nodup ∧
    ∃ e ∈ (createAndApplyIqeSecret plainExt noFaults
        (bothConfigured "smoke" "view" "environment")
        NewObjectCache (testRequest "smoke" "") ownerApp "env").2.staged,
      e.identity = CoreIqeSecret ∧
      ∃ (M : List (String × config.AppConfig)) (cfg : config.AppConfig),
        fetchConfig plainExt noFaults (bothConfigured "smoke" "view" "environment")
          { Name := siblingApp.Name, Namespace := siblingApp.Namespace } = .ok cfg ∧
        (siblingApp.Name, cfg) ∈ M :=
  ⟨by decide, by decide,
   by
    obtain ⟨e, he, -, -, M, hid, -, -, -, -, -, -, -, -, hown⟩ :=
      createAndApplyIqeSecret_payload plainExt noFaults
        (bothConfigured "smoke" "view" "environment") NewObjectCache (testRequest "smoke" "")
        ownerApp "env" (by decide)
    obtain ⟨cfg, hcfg, hmem, -⟩ := hown (by decide) siblingApp (by decide) (by decide)
    exact ⟨e, he, hid, M, cfg, hcfg, hmem⟩⟩

/-- The loop of the watch router collects the requests that pass its test, in order. -/
theorem foldl_collect_eq {α β : Type} (p : α → Bool) (g : α → β) (l : List α) (acc : List β) :
    l.foldl (fun reqs a => if p a then reqs ++ [g a] else reqs) acc =
      acc ++ (l.filter p).map g := by
  induction l generalizing acc with
  | nil => simp
  | cons a t ih =>
    simp only [List.foldl_cons, List.filter_cons]
    rw [ih]
    by_cases h : p a = true
    · simp [h]
    · simp [h]

/-- Claim C12 (watch routing): when the changed job exists and the requests can be listed,
`cjiToEnqueueUponJobUpdate` returns, in listing order, exactly one reconcile request
`(namespace, name)` for each listed request whose `Status.Jobs` contains the name of the
changed job and none for any other request; in particular it returns no reconcile request
when no listed request contains that name. -/
theorem cjiToEnqueueUponJobUpdate_spec (f : Faults) (cl : Cluster) (a : metav1.ObjectMeta)
    (hget : f.getJob = none)
    (hexists : cl.lookupJob { Name := a.Name, Namespace := a.Namespace } ≠ none)
    (hlist : f.listCJIs = none) :
    cjiToEnqueueUponJobUpdate f cl a =
      some ((cl.cjis.filter (fun cji => decide (a.Name ∈ cji.Status.Jobs.getD []))).map
        (fun cji => { NamespacedName := { Name := cji.Name, Namespace := cji.Namespace } })) ∧
    ((∀ cji ∈ cl.cjis, a.Name ∉ cji.Status.Jobs.getD []) →
      cjiToEnqueueUponJobUpdate f cl a = some []) := by
  have hmain : cjiToEnqueueUponJobUpdate f cl a =
      some ((cl.cjis.filter (fun cji => decide (a.Name ∈ cji.Status.Jobs.getD []))).map
        (fun cji => { NamespacedName := { Name := cji.Name, Namespace := cji.Namespace } })) := by
    unfold cjiToEnqueueUponJobUpdate clientGetJob
    simp only [hget, hlist]
    cases hj : cl.lookupJob { Name := a.Name, Namespace := a.Namespace } with
    | none => exact absurd hj hexists
    | some job =>
      have hname : job.ObjectMeta.Name = a.Name := by
        unfold Cluster.lookupJob at hj
        have := List.find?_some hj
        simp only [hasName, Bool.and_eq_true, beq_iff_eq] at this
        exact this.1
      dsimp only
      rw [foldl_collect_eq (fun cji : crd.ClowdJobInvocation =>
            contains cji.Status.Jobs job.ObjectMeta.Name)
          (fun cji : crd.ClowdJobInvocation =>
            ({ NamespacedName := { Name := cji.Name, Namespace := cji.Namespace } } :
              reconcile.Request))]
      rw [List.nil_append, hname]
      congr 2
      apply List.filter_congr
      intro cji _
      by_cases h : a.Name ∈ cji.Status.Jobs.getD []
      · simp [h, (contains_iff_mem _ _).2 h]
      · have hc : contains cji.Status.Jobs a.Name = false := by
          cases hb : contains cji.Status.Jobs a.Name with
          | false => rfl
          | true => exact absurd ((contains_iff_mem _ _).1 hb) h
        simp [h, hc]
  refine ⟨hmain, ?_⟩
  intro hnone
  rw [hmain]
  have : cl.cjis.filter (fun cji => decide (a.Name ∈ cji.Status.Jobs.getD [])) = [] := by
    rw [List.filter_eq_nil_iff]
    intro cji hc
    simpa using hnone cji hc
  rw [this]
  rfl

/-- Witness of claim C12: a change of job `app-a-req` enqueues the first and the third
request, a change of job `unrelated` enqueues none. -/
theorem cjiToEnqueueUponJobUpdate_spec_witness :
    cjiToEnqueueUponJobUpdate noFaults routedCluster { Name := "app-a-req", Namespace := "ns" } =
      some [{ NamespacedName := { Name := "req", Namespace := "ns" } },
            { NamespacedName := { Name := "req3", Namespace := "other-ns" } }] ∧
    cjiToEnqueueUponJobUpdate noFaults routedCluster { Name := "unrelated", Namespace := "ns" } =
      some [] :=
  ⟨(cjiToEnqueueUponJobUpdate_spec noFaults routedCluster
      { Name := "app-a-req", Namespace := "ns" } rfl (by decide) rfl).1.trans (by decide),
   (cjiToEnqueueUponJobUpdate_spec noFaults routedCluster
      { Name := "unrelated", Namespace := "ns" } rfl (by decide) rfl).2 (by decide)⟩

/-- The configuration-access switch puts exactly the container it is given, up to its
volume mounts, into the job, and leaves the service account name of the pod alone. -/
theorem configAccessSwitch_container (x : Ext) (f : Faults) (cl : Cluster) (cache : ObjectCache)
    (cji : crd.ClowdJobInvocation) (env : crd.ClowdEnvironment) (app : crd.ClowdApp)
    (nn : types.NamespacedName) (c : core.Container) (j : batchv1.Job)
    (hok : (configAccessSwitch x f cl cache cji env app nn c j).err = none) :
    (∃ mounts, (configAccessSwitch x f cl cache cji env app nn c j).j.Spec.Template.Spec.Containers
      = [{ c with VolumeMounts := mounts }]) ∧
    (configAccessSwitch x f cl cache cji env app nn c j).j.Spec.Template.Spec.ServiceAccountName
      = j.Spec.Template.Spec.ServiceAccountName := by
  unfold configAccessSwitch at hok ⊢
  dsimp only at hok ⊢
  by_cases h1 : env.Spec.Providers.Testing.ConfigAccess = "environment"
  · rw [if_pos h1] at hok ⊢
    generalize createAndApplyIqeSecret x f cl cache cji app env.Name = r at hok ⊢
    obtain ⟨e, cache2⟩ := r
    cases e with
    | some err => cases hok
    | none => exact ⟨⟨_, rfl⟩, rfl⟩
  · rw [if_neg h1] at hok ⊢
    by_cases h2 : env.Spec.Providers.Testing.ConfigAccess = "app"
    · rw [if_pos h2]
      exact ⟨⟨_, rfl⟩, rfl⟩
    · rw [if_neg h2]
      exact ⟨⟨c.VolumeMounts, rfl⟩, rfl⟩

/-- Claim C17 (image resolution): in the test job that `createIqeJobResource` builds, the
image of the container is `<base>:<tag>`, where `base` is the test-runner image declared by
the environment (`ImageBase`) and `tag` is the image-tag override of the request when that is
non-empty, and otherwise the tag the application declares, its `Testing.IqePlugin` value. -/
theorem createIqeJobResource_image (x : Ext) (f : Faults) (cl : Cluster)
    (cache : ObjectCache) (cji : crd.ClowdJobInvocation) (env : crd.ClowdEnvironment)
    (app : crd.ClowdApp) (nn : types.NamespacedName) (j : batchv1.Job)
    (hok : (createIqeJobResource x f cl cache cji env app nn j).err = none) :
    (createIqeJobResource x f cl cache cji env app nn j).j.Spec.Template.Spec.Containers.map
        (fun c => c.Image) =
      [env.Spec.Providers.Testing.Iqe.ImageBase ++ ":" ++
        (if cji.Spec.Testing.Iqe.ImageTag ≠ "" then cji.Spec.Testing.Iqe.ImageTag
         else app.Spec.Testing.IqePlugin)] := by
  unfold createIqeJobResource at hok ⊢
  dsimp only at hok ⊢
  generalize accessLevelSwitch x f cl cache env app nn _ = sw at hok ⊢
  cases hsw : sw.err with
  | some err => rw [hsw] at hok; cases hok
  | none =>
    rw [hsw] at hok
    simp only [hsw]
    unfold constructIqeCommand at hok ⊢
    dsimp only at hok ⊢
    obtain ⟨⟨mounts, hc⟩, -⟩ := configAccessSwitch_container x f cl sw.cache cji env app nn _ _ hok
    rw [hc]
    rfl

/-- Witness of claim C17: without override the tag is the plugin of the application, with
the override `stable` it is the override. -/
theorem createIqeJobResource_image_witness :
    (createIqeJobResource plainExt noFaults (bothConfigured "smoke" "view" "app")
      NewObjectCache (testRequest "smoke" "") (testEnv "view" "app") ownerApp iqeKey
      {}).j.Spec.Template.Spec.Containers.map (fun c => c.Image) = ["quay.io/iqe:my-plugin"] ∧
    (createIqeJobResource plainExt noFaults (bothConfigured "smoke" "view" "app")
      NewObjectCache
      { testRequest "smoke" "" with Spec.Testing.Iqe.ImageTag := "stable" }
      (testEnv "view" "app") ownerApp iqeKey
      {}).j.Spec.Template.Spec.Containers.map (fun c => c.Image) = ["quay.io/iqe:stable"] :=
  ⟨(createIqeJobResource_image plainExt noFaults (bothConfigured "smoke" "view" "app")
      NewObjectCache (testRequest "smoke" "") (testEnv "view" "app") ownerApp iqeKey {}
      (by decide)).trans (by decide),
   (createIqeJobResource_image plainExt noFaults (bothConfigured "smoke" "view" "app")
      NewObjectCache { testRequest "smoke" "" with Spec.Testing.Iqe.ImageTag := "stable" }
      (testEnv "view" "app") ownerApp iqeKey {} (by decide)).trans (by decide)⟩

/-- Without a lookup failure `Create` returns without error. -/
theorem Create_ok_of_no_fault {α : Type} [Managed α] (cache : ObjectCache) (f : Faults)
    (c : Cluster) (identity : ResourceIdent) (nn : types.NamespacedName) (object : α)
    (h : f.cacheGet identity nn = none) :
    ∃ r, cache.Create f c identity nn object = .ok r := by
  unfold ObjectCache.Create
  split
  · exact ⟨_, rfl⟩
  · split
    · exact ⟨_, rfl⟩
    · rw [h]
      dsimp only
      split
      · exact ⟨_, rfl⟩
      · exact ⟨_, rfl⟩

/-- Without a lookup failure `InvokeJob` returns without error. -/
theorem InvokeJob_ok_of_no_fault (x : Ext) (f : Faults) (cl : Cluster) (cache : ObjectCache)
    (job : crd.Job) (app : crd.ClowdApp) (env : crd.ClowdEnvironment)
    (cji : crd.ClowdJobInvocation) (h : ∀ nn, f.cacheGet ClowdJob nn = none) :
    (InvokeJob x f cl cache job app env cji).err = none := by
  unfold InvokeJob
  dsimp only
  obtain ⟨r, hr⟩ := Create_ok_of_no_fault cache f cl ClowdJob
    { Name := sprintfDashed app.Name job.Name cji.Name, Namespace := cji.Namespace }
    (jobProvider.CreateJobResource x cji env
      { Name := sprintfDashed app.Name job.Name cji.Name, Namespace := cji.Namespace } job {})
    (h _)
  rw [hr]

/-- When some requested name has no definition and no lookup fails, the loop of `Reconcile`
over the requested names returns the lookup error without requesting a requeue. -/
theorem invokeJobs_missing (x : Ext) (f : Faults) (cl : Cluster) (app : crd.ClowdApp)
    (env : crd.ClowdEnvironment) (h : ∀ nn, f.cacheGet ClowdJob nn = none)
    (names : List String) :
    ∀ (cache : ObjectCache) (cji : crd.ClowdJobInvocation),
    (∃ n ∈ names, getJobFromNameLoop n app.Spec.Jobs = none) →
    ∃ err cache2 cji2,
      invokeJobs x f cl app env names cache cji = .ret {} (some err) cache2 cji2 := by
  induction names with
  | nil =>
    intro cache cji hm
    obtain ⟨n, hn, -⟩ := hm
    cases hn
  | cons jobName rest ih =>
    intro cache cji hm
    unfold invokeJobs getJobFromName
    cases hj : getJobFromNameLoop jobName app.Spec.Jobs with
    | none => exact ⟨_, _, _, rfl⟩
    | some job =>
      have hrest : ∃ n ∈ rest, getJobFromNameLoop n app.Spec.Jobs = none := by
        obtain ⟨n, hn, hnone⟩ := hm
        rcases List.mem_cons.1 hn with h1 | h1
        · rw [h1, hj] at hnone; cases hnone
        · exact ⟨n, h1, hnone⟩
      dsimp only
      split
      · exact ih cache cji hrest
      · rw [InvokeJob_ok_of_no_fault x f cl cache job app env cji h]
        exact ih _ _ hrest

/-- With nothing invoked yet, `setCompletedStatus` records `Completed = false` and the empty
slice. -/
theorem setCompletedStatus_empty (f : Faults) (n : Nat) (cl : Cluster)
    (cji : crd.ClowdJobInvocation) (hlist : f.listJobs n = none)
    (hempty : sliceLen cji.Status.Jobs = 0) :
    setCompletedStatus f n cl cji =
      .ok { cji with Status := { Completed := false, Jobs := some [],
                                 PodNames := cji.Status.PodNames } } := by
  unfold setCompletedStatus clientListJobs getInvocationStatus
  rw [hlist]
  dsimp only
  rw [if_pos hempty]

/-- Without a transport failure the status write of a stored request succeeds. -/
theorem clientStatusUpdate_ok_of_no_fault (f : Faults) (n : Nat) (cl : Cluster)
    (cji stored : crd.ClowdJobInvocation) (hf : f.statusUpdate n = none)
    (hstored : cl.lookupCJI { Name := cji.Name, Namespace := cji.Namespace } = some stored) :
    ∃ cl2, clientStatusUpdate f n cl cji = .ok cl2 := by
  unfold clientStatusUpdate
  rw [hf, hstored]
  exact ⟨_, rfl⟩

/-- Claim C14 (missing definition): for a stored request with nothing invoked yet, a ready
application and an existing environment, in which some requested job name has no definition
in the application, a `Reconcile` pass whose client calls up to that point do not fail
returns an error without requesting a requeue, leaves the stored jobs, secrets and service
accounts as they were (nothing is flushed, also not for earlier names that did resolve), and
the stored `Status.Jobs` is the empty slice. -/
theorem Reconcile_missing_definition (x : Ext) (f : Faults) (cl : Cluster) (req : ctrl.Request)
    (cji : crd.ClowdJobInvocation) (app : crd.ClowdApp) (env : crd.ClowdEnvironment)
    (hget : f.getCJI = none) (hlist : f.listJobs 0 = none) (hwrite : f.statusUpdate 0 = none)
    (hgetApp : f.getApp = none) (hgetEnv : f.getEnv = none)
    (hcache : ∀ nn, f.cacheGet ClowdJob nn = none)
    (hstored : cl.lookupCJI req.NamespacedName = some cji)
    (hempty : sliceLen cji.Status.Jobs = 0)
    (happ : cl.lookupApp
      { Name := cji.Spec.AppName, Namespace := req.NamespacedName.Namespace } = some app)
    (hready : app.IsReady = true)
    (henv : cl.lookupEnv { Name := app.Spec.EnvName } = some env)
    (hmissing : ∃ n ∈ cji.Spec.Jobs, ∀ j ∈ app.Spec.Jobs, j.Name ≠ n) :
    (Reconcile x f cl req).result.Requeue = false ∧
    (∃ err, (Reconcile x f cl req).err = some err) ∧
    (Reconcile x f cl req).cluster.jobs = cl.jobs ∧
    (Reconcile x f cl req).cluster.secrets = cl.secrets ∧
    (Reconcile x f cl req).cluster.serviceAccounts = cl.serviceAccounts ∧
    ∃ stored, (Reconcile x f cl req).cluster.lookupCJI req.NamespacedName = some stored ∧
      stored.Status.Jobs = some [] := by
  have hnm := lookupCJI_name cl _ cji hstored
  obtain ⟨cjiU, hcjiU⟩ : ∃ c : crd.ClowdJobInvocation, c =
      { cji with Status := { Completed := false, Jobs := some [],
                             PodNames := cji.Status.PodNames } } := ⟨_, rfl⟩
  have hnmU : cjiU.Name = req.NamespacedName.Name ∧
      cjiU.Namespace = req.NamespacedName.Namespace := by
    rw [hcjiU]; exact hnm
  have hset : setCompletedStatus f 0 cl cji = .ok cjiU := by
    rw [hcjiU]; exact setCompletedStatus_empty f 0 cl cji hlist hempty
  have hcompl : cjiU.Status.Completed = false := by rw [hcjiU]
  have hjobsU : cjiU.Status.Jobs = some [] := by rw [hcjiU]
  have hspecU : cjiU.Spec = cji.Spec := by rw [hcjiU]
  obtain ⟨cl2, hu⟩ := clientStatusUpdate_ok_of_no_fault f 0 cl cjiU cji hwrite
    (by rw [hnmU.1, hnmU.2]; exact hstored)
  obtain ⟨hl, hj, hsec, hsa, happs, henvs⟩ :=
    clientStatusUpdate_ok f 0 cl cl2 req.NamespacedName cji cjiU hstored hnmU hu
  have hmiss2 : ∃ n ∈ cjiU.Spec.Jobs, getJobFromNameLoop n app.Spec.Jobs = none := by
    obtain ⟨n, hn, hno⟩ := hmissing
    rw [hspecU]
    exact ⟨n, hn, (getJobFromNameLoop_none n app.Spec.Jobs).2 hno⟩
  obtain ⟨err, cache2, cji3, hloop⟩ := invokeJobs_missing x f cl2 app env hcache cjiU.Spec.Jobs
    NewObjectCache cjiU hmiss2
  have happ2 : cl2.lookupApp
      { Name := cjiU.Spec.AppName, Namespace := req.NamespacedName.Namespace } = some app := by
    unfold Cluster.lookupApp at happ ⊢
    rw [happs, hspecU]; exact happ
  have henv2 : cl2.lookupEnv { Name := app.Spec.EnvName } = some env := by
    unfold Cluster.lookupEnv at henv ⊢
    rw [henvs]; exact henv
  have hlen : ¬ (sliceLen cjiU.Status.Jobs > 0) := by
    rw [hjobsU]; decide
  have hphase : invokePhase x f cl2 NewObjectCache req cjiU =
      { result := {}, err := some err, cluster := cl2, cache := cache2 } := by
    unfold invokePhase clientGetApp clientGetEnv
    simp only [hgetApp, happ2, hready, hgetEnv, henv2, hloop]
    rfl
  have hpass : Reconcile x f cl req =
      { result := {}, err := some err, cluster := cl2, cache := cache2 } := by
    unfold Reconcile clientGetCJI
    simp only [hget, hstored, hset, hu, hcompl, hphase]
    rw [if_neg hlen]
    rfl
  rw [hpass]
  exact ⟨rfl, ⟨err, rfl⟩, hj, hsec, hsa, _, hl, hjobsU⟩

/-- Witness of claim C14: job `a` resolves, job `zzz` has no definition. -/
theorem Reconcile_missing_definition_witness :
    (Reconcile plainExt noFaults missingDefinitionCluster reqKey).result.Requeue = false ∧
    (Reconcile plainExt noFaults missingDefinitionCluster reqKey).err
      = some "No such job zzz" ∧
    (Reconcile plainExt noFaults missingDefinitionCluster reqKey).cluster.jobs = [] ∧
    (Reconcile plainExt noFaults missingDefinitionCluster reqKey).cache.staged.map
      (fun e => e.namespacedName.Name) = ["app-a-req"] :=
  ⟨(Reconcile_missing_definition plainExt noFaults missingDefinitionCluster reqKey
      { Name := "req", Namespace := "ns", Spec := { AppName := "app", Jobs := ["a", "zzz"] } }
      ownerApp (testEnv "view" "none") rfl rfl rfl rfl rfl (fun _ => rfl)
      (by decide) (by decide) (by decide) (by decide) (by decide)
      ⟨"zzz", by decide, by decide⟩).1,
   by decide, by decide, by decide⟩

/-- Claim C16 fails on the code at the flush: on a request for three defined jobs whose
application and environment exist, with every write of the flush failing, `Reconcile`
returns the flush error together with a result that does not request a requeue. The other
retryable errors of the claim do request one: a missing application, a missing environment
and a missing upstream configuration during aggregation all return `Requeue = true`. -/
theorem Reconcile_flush_failure_no_requeue :
    (Reconcile plainExt flushFails freshCluster reqKey).err = some "conflict" ∧
    (Reconcile plainExt flushFails freshCluster reqKey).result.Requeue = false ∧
    (Reconcile plainExt flushFails freshCluster reqKey).cache.staged.map
      (fun e => e.namespacedName.Name) = ["app-a-req", "app-b-req", "app-c-req"] ∧
    (Reconcile plainExt noFaults { freshCluster with apps := [] } reqKey).err
      = some "clowdapp not found" ∧
    (Reconcile plainExt noFaults { freshCluster with apps := [] } reqKey).result.Requeue
      = true ∧
    (Reconcile plainExt noFaults { freshCluster with envs := [] } reqKey).err
      = some "clowdenvironment not found" ∧
    (Reconcile plainExt noFaults { freshCluster with envs := [] } reqKey).result.Requeue
      = true ∧
    (Reconcile plainExt noFaults (siblingUnconfigured "smoke" "view" "environment") reqKey).err
      = some "secret not found" ∧
    (Reconcile plainExt noFaults
      (siblingUnconfigured "smoke" "view" "environment") reqKey).result.Requeue = true := by
  decide

/-- The job test of the completion count, on a live job of a given name. -/
theorem finished_any_iff (items : List batchv1.Job) (n : String) :
    items.any (fun j => j.ObjectMeta.Name == n && isFinished j) = true ↔
      ∃ j ∈ items, j.ObjectMeta.Name = n ∧ isFinished j = true := by
  rw [List.any_eq_true]
  constructor
  · rintro ⟨j, hj, hp⟩
    rw [Bool.and_eq_true] at hp
    exact ⟨j, hj, eq_of_beq hp.1, hp.2⟩
  · rintro ⟨j, hj, hn, hf⟩
    refine ⟨j, hj, ?_⟩
    rw [Bool.and_eq_true]
    exact ⟨by rw [hn]; exact beq_self_eq_true n, hf⟩

/-- When the live jobs have pairwise distinct names, the completion count is the number of
distinct invoked names under which a finished job is listed. -/
theorem countCompletedJobs_eq_finishedNames (jobs : batchv1.JobList)
    (cji : crd.ClowdJobInvocation)
    (hlive : (jobs.Items.map (fun j => j.ObjectMeta.Name)).Nodup) :
    countCompletedJobs jobs cji = (finishedNames jobs (cji.Status.Jobs.getD [])).length := by
  rw [countCompletedJobs_eq_countP, List.countP_eq_length_filter]
  rw [← List.length_map (jobs.Items.filter _) (fun j => j.ObjectMeta.Name)]
  apply List.Perm.length_eq
  rw [List.perm_ext_iff_of_nodup]
  · intro n
    unfold finishedNames
    rw [List.mem_map, List.mem_filter, List.mem_dedup, finished_any_iff]
    constructor
    · rintro ⟨j, hj, hn⟩
      rw [List.mem_filter, Bool.and_eq_true, contains_iff_mem] at hj
      exact ⟨by rw [← hn]; exact hj.2.1, j, hj.1, hn, hj.2.2⟩
    · rintro ⟨hn, j, hj, hjn, hf⟩
      refine ⟨j, ?_, hjn⟩
      rw [List.mem_filter, Bool.and_eq_true, contains_iff_mem]
      exact ⟨hj, by rw [hjn]; exact hn, hf⟩
  · exact List.Nodup.sublist (List.Sublist.map _ (List.filter_sublist _)) hlive
  · unfold finishedNames
    exact List.Nodup.sublist (List.filter_sublist _) (List.nodup_dedup _)

/-- The completion flag of a request with invoked jobs, in terms of the completion count. -/
theorem getInvocationStatus_eq_of_invoked (jobs : batchv1.JobList)
    (cji : crd.ClowdJobInvocation) (hinvoked : sliceLen cji.Status.Jobs ≠ 0)
    (hrequested : 0 < cji.Spec.Jobs.length) :
    (getInvocationStatus jobs cji).1 =
      decide (countCompletedJobs jobs cji = cji.Spec.Jobs.length) := by
  unfold getInvocationStatus
  rw [if_neg hinvoked]
  simp [hrequested]

/-- Claim C18: for a request with `k ≥ 1` requested job names whose `Status.Jobs` holds
`k + 1` distinct names (the `k` managed jobs and the test job), and a live job list with
pairwise distinct names: if every invoked name has a finished job in the list, the
completion count is `k + 1` and `getInvocationStatus` returns `false`; and it returns `true`
exactly when `k` of the invoked names have a finished job in the list. -/
theorem getInvocationStatus_with_test_job (jobs : batchv1.JobList)
    (cji : crd.ClowdJobInvocation) (names : List String)
    (hjobs : cji.Status.Jobs = some names) (hdistinct : names.Nodup)
    (hk : 1 ≤ cji.Spec.Jobs.length) (hlen : names.length = cji.Spec.Jobs.length + 1)
    (hlive : (jobs.Items.map (fun j => j.ObjectMeta.Name)).Nodup) :
    ((∀ n ∈ names, ∃ j ∈ jobs.Items, j.ObjectMeta.Name = n ∧ isFinished j = true) →
      countCompletedJobs jobs cji = cji.Spec.Jobs.length + 1 ∧
      (getInvocationStatus jobs cji).1 = false) ∧
    ((getInvocationStatus jobs cji).1 = true ↔
      (finishedNames jobs names).length = cji.Spec.Jobs.length) := by
  have hinv : sliceLen cji.Status.Jobs ≠ 0 := by
    unfold sliceLen
    rw [hjobs]
    show names.length ≠ 0
    omega
  have hcount := countCompletedJobs_eq_finishedNames jobs cji hlive
  rw [hjobs] at hcount
  change countCompletedJobs jobs cji = (finishedNames jobs names).length at hcount
  have hflag := getInvocationStatus_eq_of_invoked jobs cji hinv (by omega)
  constructor
  · intro hall
    have hfull : finishedNames jobs names = names := by
      unfold finishedNames
      rw [List.Nodup.dedup hdistinct, List.filter_eq_self]
      intro n hn
      exact (finished_any_iff _ _).2 (hall n hn)
    have hc : countCompletedJobs jobs cji = cji.Spec.Jobs.length + 1 := by
      rw [hcount, hfull, hlen]
    refine ⟨hc, ?_⟩
    rw [hflag, hc]
    simp
  · rw [hflag, hcount]
    simp

/-- Witness of claim C18: the invocation pass of a request for job `a` with a test payload
records the two names `app-a-req` and `req-iqe`; with both jobs finished the request is not
complete, with only the managed job finished it is. -/
theorem getInvocationStatus_with_test_job_witness :
    ((Reconcile plainExt noFaults jobAndTestCluster reqKey).cluster.lookupCJI
      reqKey.NamespacedName).map (fun o => o.Status.Jobs)
      = some (some ["app-a-req", "req-iqe"]) ∧
    (getInvocationStatus
      { Items := [liveJob "app-a-req" ["Complete"], liveJob "req-iqe" ["Failed"]] }
      jobAndTestInvoked).1 = false ∧
    (getInvocationStatus { Items := [liveJob "app-a-req" ["Complete"], liveJob "req-iqe" []] }
      jobAndTestInvoked).1 = true :=
  ⟨by decide,
   ((getInvocationStatus_with_test_job
      { Items := [liveJob "app-a-req" ["Complete"], liveJob "req-iqe" ["Failed"]] }
      jobAndTestInvoked ["app-a-req", "req-iqe"] rfl (by decide) (by decide) (by decide)
      (by decide)).1 (by decide)).2,
   (getInvocationStatus_with_test_job
      { Items := [liveJob "app-a-req" ["Complete"], liveJob "req-iqe" []] }
      jobAndTestInvoked ["app-a-req", "req-iqe"] rfl (by decide) (by decide) (by decide)
      (by decide)).2.2 (by decide)⟩

/-- A successful `Create` of a job named after its key keeps the cache well named and
returns a job of that name. -/
theorem Create_job_wellNamed (cache cache2 : ObjectCache) (f : Faults) (c : Cluster)
    (identity : ResourceIdent) (nn : types.NamespacedName) (j j2 : batchv1.Job)
    (hwn : cacheWellNamed cache) (hj : j.ObjectMeta.Name = nn.Name)
    (h : cache.Create f c identity nn j = .ok (cache2, j2)) :
    cacheWellNamed cache2 ∧ j2.ObjectMeta.Name = nn.Name := by
  unfold ObjectCache.Create at h
  cases hs : cache.findStaged identity nn with
  | some e =>
    rw [hs] at h
    injection h with h
    injection h with h1 h2
    subst h1
    refine ⟨hwn, ?_⟩
    unfold ObjectCache.findStaged at hs
    have hmem := List.mem_of_find?_eq_some hs
    have hp := List.find?_some hs
    rw [Bool.and_eq_true] at hp
    have hname := hwn.1 e hmem
    rw [eq_of_beq hp.2] at hname
    rw [← h2]
    cases hd : e.desiredObject with
    | job j3 => rw [hd] at hname; exact hname
    | secret s => exact hj
    | serviceAccount s => exact hj
  | none =>
    rw [hs] at h
    dsimp only at h
    cases hf : cache.findFetched identity nn with
    | some o =>
      rw [hf] at h
      injection h with h
      injection h with h1 h2
      subst h1
      refine ⟨hwn, ?_⟩
      unfold ObjectCache.findFetched at hf
      rw [Option.map_eq_some'] at hf
      obtain ⟨t, ht, hto⟩ := hf
      have hmem := List.mem_of_find?_eq_some ht
      have hp := List.find?_some ht
      rw [Bool.and_eq_true] at hp
      have hname := hwn.2 t hmem
      rw [eq_of_beq hp.2, hto] at hname
      rw [← h2]
      cases o with
      | job j3 => exact hname
      | secret s => exact hj
      | serviceAccount s => exact hj
    | none =>
      rw [hf] at h
      dsimp only at h
      cases hg : f.cacheGet identity nn with
      | some err => rw [hg] at h; cases h
      | none =>
        rw [hg] at h
        dsimp only at h
        cases hl : c.lookupObject nn (Managed.wrap j) with
        | some o =>
          rw [hl] at h
          injection h with h
          injection h with h1 h2
          subst h1
          have ho : o.objectMeta.Name = nn.Name := by
            change Option.map Object.job (c.lookupJob nn) = some o at hl
            rw [Option.map_eq_some'] at hl
            obtain ⟨j3, hj3, hjo⟩ := hl
            unfold Cluster.lookupJob at hj3
            have hp := List.find?_some hj3
            unfold hasName at hp
            rw [Bool.and_eq_true] at hp
            rw [← hjo]
            exact eq_of_beq hp.1
          constructor
          · constructor
            · exact hwn.1
            · intro t ht
              rcases List.mem_append.1 ht with h3 | h3
              · exact hwn.2 t h3
              · rw [List.mem_singleton] at h3
                rw [h3]; exact ho
          · rw [← h2]
            cases o with
            | job j3 => exact ho
            | secret s => exact hj
            | serviceAccount s => exact hj
        | none =>
          rw [hl] at h
          injection h with h
          injection h with h1 h2
          subst h1
          constructor
          · constructor
            · intro e he
              rcases List.mem_append.1 he with h3 | h3
              · exact hwn.1 e h3
              · rw [List.mem_singleton] at h3
                rw [h3]; exact hj
            · exact hwn.2
          · rw [← h2]; exact hj

/-- On a well-named cache a successful `InvokeJob` records the managed job name and leaves
the cache well named. -/
theorem InvokeJob_wellNamed (x : Ext) (f : Faults) (cl : Cluster) (cache : ObjectCache)
    (job : crd.Job) (app : crd.ClowdApp) (env : crd.ClowdEnvironment)
    (cji : crd.ClowdJobInvocation) (hwn : cacheWellNamed cache)
    (hok : (InvokeJob x f cl cache job app env cji).err = none) :
    cacheWellNamed (InvokeJob x f cl cache job app env cji).cache ∧
    (InvokeJob x f cl cache job app env cji).cji =
      { cji with Status.Jobs :=
          sliceAppend cji.Status.Jobs (sprintfDashed app.Name job.Name cji.Name) } := by
  unfold InvokeJob at hok ⊢
  dsimp only at hok ⊢
  cases hc : cache.Create f cl ClowdJob
      { Name := sprintfDashed app.Name job.Name cji.Name, Namespace := cji.Namespace }
      (jobProvider.CreateJobResource x cji env
        { Name := sprintfDashed app.Name job.Name cji.Name, Namespace := cji.Namespace }
        job {}) with
  | error err => rw [hc] at hok; cases hok
  | ok r =>
    obtain ⟨cache2, j2⟩ := r
    obtain ⟨h1, h2⟩ := Create_job_wellNamed _ _ _ _ _ _ _ _ hwn rfl hc
    dsimp only
    rw [h2]
    exact ⟨h1, rfl⟩

/-- What the loop of `Reconcile` over the requested names records when it falls through,
starting from a well-named cache: the specification and the name of the request are
untouched, every recorded name was recorded before or is the managed job name of a requested
name, and recorded names stay pairwise distinct. -/
theorem invokeJobs_recorded (x : Ext) (f : Faults) (cl : Cluster) (app : crd.ClowdApp)
    (env : crd.ClowdEnvironment) (names : List String) :
    ∀ (cache : ObjectCache) (cji : crd.ClowdJobInvocation) (cache2 : ObjectCache)
      (cji2 : crd.ClowdJobInvocation),
    cacheWellNamed cache →
    invokeJobs x f cl app env names cache cji = .next cache2 cji2 →
    cji2.Spec = cji.Spec ∧ cji2.Name = cji.Name ∧
    (∀ n ∈ cji2.Status.Jobs.getD [], n ∈ cji.Status.Jobs.getD [] ∨
      ∃ jn ∈ names, n = sprintfDashed app.Name jn cji.Name) ∧
    ((cji.Status.Jobs.getD []).Nodup → (cji2.Status.Jobs.getD []).Nodup) := by
  induction names with
  | nil =>
    intro cache cji cache2 cji2 _ h
    unfold invokeJobs at h
    injection h with h1 h2
    subst h2
    exact ⟨rfl, rfl, fun n hn => Or.inl hn, fun hnd => hnd⟩
  | cons jobName rest ih =>
    intro cache cji cache2 cji2 hwn h
    unfold invokeJobs at h
    cases hg : getJobFromName jobName app with
    | error err => rw [hg] at h; cases h
    | ok job =>
      rw [hg] at h
      dsimp only at h
      have hjn : job.Name = jobName := by
        unfold getJobFromName at hg
        cases hl : getJobFromNameLoop jobName app.Spec.Jobs with
        | none => rw [hl] at hg; cases hg
        | some k =>
          rw [hl] at hg
          injection hg with hg
          subst hg
          obtain ⟨_, _, _, hk, _⟩ := (getJobFromNameLoop_some _ _ _).1 hl
          exact hk
      by_cases hcont : contains cji.Status.Jobs (sprintfDashed app.Name job.Name cji.Name) = true
      · rw [if_pos hcont] at h
        obtain ⟨h1, h2, h3, h4⟩ := ih cache cji cache2 cji2 hwn h
        refine ⟨h1, h2, ?_, h4⟩
        intro n hn
        rcases h3 n hn with h5 | ⟨jn, hjn2, h5⟩
        · exact Or.inl h5
        · exact Or.inr ⟨jn, List.mem_cons_of_mem _ hjn2, h5⟩
      · rw [if_neg hcont] at h
        cases he : (InvokeJob x f cl cache job app env cji).err with
        | some err => rw [he] at h; cases h
        | none =>
          rw [he] at h
          dsimp only at h
          obtain ⟨hwn2, hcji⟩ := InvokeJob_wellNamed x f cl cache job app env cji hwn he
          obtain ⟨h1, h2, h3, h4⟩ := ih _ _ cache2 cji2 hwn2 h
          rw [hcji] at h1 h2 h3 h4
          have hnot : sprintfDashed app.Name job.Name cji.Name ∉ cji.Status.Jobs.getD [] :=
            fun hm => hcont ((contains_iff_mem _ _).2 hm)
          refine ⟨h1, h2, ?_, ?_⟩
          · intro n hn
            rcases h3 n hn with h5 | ⟨jn, hjn2, h5⟩
            · change n ∈ cji.Status.Jobs.getD [] ++ [sprintfDashed app.Name job.Name cji.Name]
                at h5
              rcases List.mem_append.1 h5 with h6 | h6
              · exact Or.inl h6
              · rw [List.mem_singleton] at h6
                exact Or.inr ⟨jobName, List.mem_cons_self _ _, by rw [h6, hjn]⟩
            · exact Or.inr ⟨jn, List.mem_cons_of_mem _ hjn2, h5⟩
          · intro hnd
            apply h4
            change (cji.Status.Jobs.getD [] ++
              [sprintfDashed app.Name job.Name cji.Name]).Nodup
            rw [List.nodup_append]
            refine ⟨hnd, List.nodup_singleton _, ?_⟩
            intro a ha hb
            rw [List.mem_singleton] at hb
            rw [hb] at ha
            exact hnot ha

/-- Pairwise distinct names drawn from the images of a list with a repetition are fewer
than the entries of that list. -/
theorem length_lt_of_repeated (recorded requested : List String) (g : String → String)
    (hdistinct : recorded.Nodup) (hfrom : ∀ n ∈ recorded, ∃ jn ∈ requested, n = g jn)
    (hrepeated : ¬ requested.Nodup) : recorded.length < requested.length := by
  have h1 : recorded.length = recorded.toFinset.card :=
    (List.toFinset_card_of_nodup hdistinct).symm
  have h2 : recorded.toFinset ⊆ requested.toFinset.image g := by
    intro n hn
    rw [List.mem_toFinset] at hn
    obtain ⟨jn, hjn, hg⟩ := hfrom n hn
    rw [Finset.mem_image]
    exact ⟨jn, List.mem_toFinset.2 hjn, hg.symm⟩
  have h3 : recorded.toFinset.card ≤ requested.toFinset.card :=
    le_trans (Finset.card_le_card h2) Finset.card_image_le
  have h4 : requested.toFinset.card = requested.dedup.length := List.card_toFinset requested
  have h5 : requested.dedup.length < requested.length := by
    have hsub := List.dedup_sublist requested
    rcases Nat.lt_or_ge requested.dedup.length requested.length with h | h
    · exact h
    · exfalso
      apply hrepeated
      have heq := hsub.eq_of_length (Nat.le_antisymm hsub.length_le h)
      rw [← heq]
      exact List.nodup_dedup requested
  omega

/-- Claim C19: for a live job list with pairwise distinct names and any request, the result
of `countCompletedJobs` is at most the number of distinct names in `Status.Jobs` and at most
the length of the live list; so `getInvocationStatus` returns `false` whenever `Status.Jobs`
has fewer distinct names than there are requested names; and that is the state the loop of
`Reconcile` over the requested names leaves, starting with nothing invoked and a fresh
cache, when the requested job list repeats a name: for every such live job list
`getInvocationStatus` then returns `false`. -/
theorem countCompletedJobs_le_distinct_invoked :
    (∀ (jobs : batchv1.JobList) (cji : crd.ClowdJobInvocation),
      (jobs.Items.map (fun j => j.ObjectMeta.Name)).Nodup →
      countCompletedJobs jobs cji ≤ ((cji.Status.Jobs.getD []).dedup).length ∧
      countCompletedJobs jobs cji ≤ jobs.Items.length) ∧
    (∀ (jobs : batchv1.JobList) (cji : crd.ClowdJobInvocation),
      (jobs.Items.map (fun j => j.ObjectMeta.Name)).Nodup →
      ((cji.Status.Jobs.getD []).dedup).length < cji.Spec.Jobs.length →
      (getInvocationStatus jobs cji).1 = false) ∧
    (∀ (x : Ext) (f : Faults) (cl : Cluster) (app : crd.ClowdApp)
      (env : crd.ClowdEnvironment) (cji : crd.ClowdJobInvocation) (cache2 : ObjectCache)
      (cji2 : crd.ClowdJobInvocation),
      sliceLen cji.Status.Jobs = 0 →
      ¬ cji.Spec.Jobs.Nodup →
      invokeJobs x f cl app env cji.Spec.Jobs NewObjectCache cji = .next cache2 cji2 →
      cji2.Spec.Jobs = cji.Spec.Jobs ∧
      ((cji2.Status.Jobs.getD []).dedup).length < cji2.Spec.Jobs.length ∧
      ∀ jobs : batchv1.JobList, (jobs.Items.map (fun j => j.ObjectMeta.Name)).Nodup →
        (getInvocationStatus jobs cji2).1 = false) := by
  have hA : ∀ (jobs : batchv1.JobList) (cji : crd.ClowdJobInvocation),
      (jobs.Items.map (fun j => j.ObjectMeta.Name)).Nodup →
      countCompletedJobs jobs cji ≤ ((cji.Status.Jobs.getD []).dedup).length ∧
      countCompletedJobs jobs cji ≤ jobs.Items.length := by
    intro jobs cji hlive
    constructor
    · rw [countCompletedJobs_eq_finishedNames jobs cji hlive]
      unfold finishedNames
      exact List.length_filter_le _ _
    · rw [countCompletedJobs_eq_countP]
      exact List.countP_le_length _
  have hB : ∀ (jobs : batchv1.JobList) (cji : crd.ClowdJobInvocation),
      (jobs.Items.map (fun j => j.ObjectMeta.Name)).Nodup →
      ((cji.Status.Jobs.getD []).dedup).length < cji.Spec.Jobs.length →
      (getInvocationStatus jobs cji).1 = false := by
    intro jobs cji hlive hfew
    by_cases hinv : sliceLen cji.Status.Jobs = 0
    · unfold getInvocationStatus
      rw [if_pos hinv]
    · rw [getInvocationStatus_eq_of_invoked jobs cji hinv (by omega)]
      have := (hA jobs cji hlive).1
      simp only [decide_eq_false_iff_not]
      omega
  refine ⟨hA, hB, ?_⟩
  intro x f cl app env cji cache2 cji2 hnone hrep hloop
  have hwn : cacheWellNamed NewObjectCache := by
    unfold cacheWellNamed
    constructor
    · intro e he; cases he
    · intro t ht; cases ht
  obtain ⟨h1, -, h3, h4⟩ := invokeJobs_recorded x f cl app env cji.Spec.Jobs
    NewObjectCache cji cache2 cji2 hwn hloop
  have hempty : cji.Status.Jobs.getD [] = [] := by
    unfold sliceLen at hnone
    exact List.length_eq_zero.1 hnone
  rw [hempty] at h3 h4
  have hnd := h4 List.nodup_nil
  have hfew : ((cji2.Status.Jobs.getD []).dedup).length < cji2.Spec.Jobs.length := by
    rw [List.Nodup.dedup hnd, h1]
    apply length_lt_of_repeated _ _ (fun jn => sprintfDashed app.Name jn cji.Name) hnd _ hrep
    intro n hn
    rcases h3 n hn with h5 | h5
    · cases h5
    · exact h5
  exact ⟨by rw [h1], hfew, fun jobs hlive => hB jobs cji2 hlive hfew⟩

/-- Witness of claim C19: the request asks for job `a` twice; its invocation pass records
the one name `app-a-req`, and with that job finished the request is still not complete. -/
theorem countCompletedJobs_le_distinct_invoked_witness :
    ((Reconcile plainExt noFaults repeatedNameCluster reqKey).cluster.lookupCJI
      reqKey.NamespacedName).map (fun o => (o.Spec.Jobs, o.Status.Jobs))
      = some (["a", "a"], some ["app-a-req"]) ∧
    countCompletedJobs { Items := [liveJob "app-a-req" ["Complete"]] }
      { Name := "req", Namespace := "ns", Spec := { AppName := "app", Jobs := ["a", "a"] },
        Status := { Jobs := some ["app-a-req"] } } ≤ 1 ∧
    (getInvocationStatus { Items := [liveJob "app-a-req" ["Complete"]] }
      { Name := "req", Namespace := "ns", Spec := { AppName := "app", Jobs := ["a", "a"] },
        Status := { Jobs := some ["app-a-req"] } }).1 = false :=
  ⟨by decide,
   (countCompletedJobs_le_distinct_invoked.1 { Items := [liveJob "app-a-req" ["Complete"]] }
      { Name := "req", Namespace := "ns", Spec := { AppName := "app", Jobs := ["a", "a"] },
        Status := { Jobs := some ["app-a-req"] } } (by decide)).2,
   countCompletedJobs_le_distinct_invoked.2.1 { Items := [liveJob "app-a-req" ["Complete"]] }
      { Name := "req", Namespace := "ns", Spec := { AppName := "app", Jobs := ["a", "a"] },
        Status := { Jobs := some ["app-a-req"] } } (by decide) (by decide)⟩

/-- Claim C20: the managed job name function
`(applicationName, jobDefinitionName, requestName) ↦ "<applicationName>-<jobDefinitionName>-<requestName>"`
is not injective: the distinct triples of non-empty names `("a-b", "c", "d")` and
`("a", "b-c", "d")` give the same managed job name `a-b-c-d`, so the membership test against
`Status.Jobs` gives the same answer for both. -/
theorem sprintfDashed_not_injective :
    sprintfDashed "a-b" "c" "d" = "a-b-c-d" ∧
    sprintfDashed "a" "b-c" "d" = "a-b-c-d" ∧
    (("a-b", "c", "d") : String × String × String) ≠ ("a", "b-c", "d") ∧
    ¬ Function.Injective
      (fun t : String × String × String => sprintfDashed t.1 t.2.1 t.2.2) ∧
    (∀ invoked : Option (List String),
      contains invoked (sprintfDashed "a-b" "c" "d") =
        contains invoked (sprintfDashed "a" "b-c" "d")) := by
  have h1 : sprintfDashed "a-b" "c" "d" = "a-b-c-d" := by decide
  have h2 : sprintfDashed "a" "b-c" "d" = "a-b-c-d" := by decide
  refine ⟨h1, h2, by decide, ?_, ?_⟩
  · intro hinj
    have h := @hinj ("a-b", "c", "d") ("a", "b-c", "d") (by show sprintfDashed _ _ _ = sprintfDashed _ _ _; rw [h1, h2])
    exact absurd h (by decide)
  · intro invoked
    rw [h1, h2]

end Clowder
